import Mathlib

/-!
Shallow embedding of the express-openapi generator
(src/generator.ts, src/errors.ts, src/utils.ts, src/types.ts, src/middleware.ts).

The generator walks an Express router tree and records OpenAPI operations
into a document.  JavaScript `Map`s keyed by object reference are modelled
as association lists keyed by numeric identities (`Nat ⊕ Nat`: `inl` for
plain handlers, `inr` for routers — two distinct JS objects always get
distinct keys).  Exceptions are modelled with `Except`, where the error
also carries the generator state at the moment of the throw, so theorems
can speak about what had (not) been recorded when an error is raised.
Recursive walks take an explicit fuel argument (the JS recursion is
unbounded; any fuel at least the tree depth gives the same result), which
keeps every definition computable by the kernel.
-/

namespace ExpressOpenAPI

/-! ### Generic association-list operations

JavaScript `Map.get` / `Map.set` and plain-object indexing/assignment.
`setEntry` overwrites in place when the key is present and appends
otherwise, matching JS insertion-order semantics. -/

def alookup {κ α : Type} [DecidableEq κ] (k : κ) : List (κ × α) → Option α
  | [] => none
  | (k', v) :: rest => if k' = k then some v else alookup k rest

def setEntry {κ α : Type} [DecidableEq κ] (k : κ) (v : α) : List (κ × α) → List (κ × α)
  | [] => [(k, v)]
  | (k', v') :: rest => if k' = k then (k, v) :: rest else (k', v') :: setEntry k v rest

/-- Field update semantics of `Object.assign(base, upd)` for one field:
the updating object's field wins when present. -/
def oAssign {α : Type} (base upd : Option α) : Option α :=
  match upd with
  | some v => some v
  | none => base

/-! ### Strings

Character-list models of the JS string operations used by the source.
`\w` in a JS regex is `[A-Za-z0-9_]`. -/

def wordChar (c : Char) : Bool := c.isAlphanum || c = '_'

/-- Model of `String.prototype.toLowerCase` (the method names involved are
ASCII, where JS and `Char.toLower` agree). -/
def lowerStr (s : String) : String := ⟨s.data.map Char.toLower⟩

def listStartsWith : List Char → List Char → Bool
  | [], _ => true
  | _ :: _, [] => false
  | c :: cs, d :: ds => c == d && listStartsWith cs ds

/-- Model of `path.startsWith(base)`. -/
def strStartsWith (path base : String) : Bool := listStartsWith base.data path.data

/-- Model of `path.replace(basePath, '')` as used in `getParams`: the call
is guarded by `path.startsWith(basePath)`, so the first occurrence that
`String.prototype.replace` removes is exactly the leading `basePath`. -/
def stripBase (basePath path : String) : String :=
  if basePath ≠ "" && strStartsWith path basePath then
    ⟨path.data.drop basePath.data.length⟩
  else path

/-! ### The two regex rewrites of `getParams`

`path = path.replace(/\{:(\w+)\}/g, ':$1')` followed by
`path = path.replace(/:(\w+)/g, '{$1}')`.  Each is modelled as a
left-to-right single-pass scanner, which agrees with the JS global-regex
replace semantics for these two patterns (no backtracking is possible:
a maximal `\w+` run followed by the required delimiter is the only
candidate match at a position). -/

mutual
/-- Scanner for `/\{:(\w+)\}/g → ':$1'`, base state. -/
def replColonGo : List Char → List Char
  | [] => []
  | c :: cs => if c = '{' then replColonBrace cs else c :: replColonGo cs

/-- Scanner state after reading `{`. -/
def replColonBrace : List Char → List Char
  | [] => ['{']
  | c :: cs =>
    if c = '{' then '{' :: replColonBrace cs
    else if c = ':' then replColonName cs []
    else '{' :: c :: replColonGo cs

/-- Scanner state after `{:`, collecting the (reversed) name `w`. -/
def replColonName : List Char → List Char → List Char
  | [], w => '{' :: ':' :: w.reverse
  | c :: cs, w =>
    if wordChar c then replColonName cs (c :: w)
    else if c = '}' then
      if w = [] then '{' :: ':' :: '}' :: replColonGo cs
      else ':' :: (w.reverse ++ replColonGo cs)
    else
      '{' :: ':' :: (w.reverse ++
        (if c = '{' then replColonBrace cs else c :: replColonGo cs))
end

mutual
/-- Scanner for `/:(\w+)/g → '{$1}'`, base state. -/
def replParamGo : List Char → List Char
  | [] => []
  | c :: cs => if c = ':' then replParamName cs [] else c :: replParamGo cs

/-- Scanner state after `:`, collecting the (reversed) name `w`. -/
def replParamName : List Char → List Char → List Char
  | [], w => if w = [] then [':'] else '{' :: (w.reverse ++ ['}'])
  | c :: cs, w =>
    if wordChar c then replParamName cs (c :: w)
    else
      (if w = [] then [':'] else '{' :: (w.reverse ++ ['}'])) ++
      (if c = ':' then replParamName cs [] else c :: replParamGo cs)
end

/-- First rewrite of `getParams`: `path.replace(/\{:(\w+)\}/g, ':$1')`. -/
def replColonStr (s : String) : String := ⟨replColonGo s.data⟩

/-- Second rewrite of `getParams`: `path.replace(/:(\w+)/g, '{$1}')`. -/
def replParamStr (s : String) : String := ⟨replParamGo s.data⟩

/-- The composed two-pass rewrite producing the document key. -/
def toOpenAPIPath (s : String) : String := replParamStr (replColonStr s)

/-! ### path-to-regexp tokens

Modelled from the spec: the external `path-to-regexp` parser (an external
collaborator, not part of this repository) turns a path string into an
ordered token sequence of literal text, `:name` parameters, `*name`
wildcards, and `{...}` groups (optional segments, possibly nested). -/

mutual
inductive Token where
  | text (value : String)
  | param (name : String)
  | wildcard (name : String)
  | group (tokens : Tokens)

/-- An ordered token sequence (the `tokens` array of the library's
`TokenData` / of a group token). -/
inductive Tokens where
  | nil
  | cons (head : Token) (tail : Tokens)
end

/-- Maximal run of `\w` characters (a parameter/wildcard name). -/
def takeName : List Char → List Char × List Char
  | [] => ([], [])
  | c :: cs =>
    if wordChar c then
      let p := takeName cs
      (c :: p.1, p.2)
    else ([], c :: cs)

/-- Fueled token parser; parses until an unmatched `}` or the end of input,
returning the tokens and the remaining input.  Fuel at least the input
length yields the complete parse. -/
def parseSeq : Nat → List Char → Tokens × List Char
  | 0, cs => (.nil, cs)
  | _ + 1, [] => (.nil, [])
  | fuel + 1, c :: cs =>
    if c = '{' then
      let inner := parseSeq fuel cs
      let rest := parseSeq fuel inner.2
      (.cons (Token.group inner.1) rest.1, rest.2)
    else if c = '}' then (.nil, cs)
    else if c = ':' then
      let n := takeName cs
      let rest := parseSeq fuel n.2
      (.cons (Token.param ⟨n.1⟩) rest.1, rest.2)
    else if c = '*' then
      let n := takeName cs
      let rest := parseSeq fuel n.2
      (.cons (Token.wildcard ⟨n.1⟩) rest.1, rest.2)
    else
      let rest := parseSeq fuel cs
      (.cons (Token.text ⟨[c]⟩) rest.1, rest.2)

/-- Modelled from the spec: `PathToRegexp.parse` of the external library
(adjacent literal characters are kept as separate text tokens, which is
immaterial to every consumer — text tokens carry no parameter data). -/
def PathToRegexp.parse (path : String) : Tokens :=
  (parseSeq path.data.length path.data).1

/-! ### src/utils.ts -/

inductive KeyKind where
  | param
  | wildcard
deriving DecidableEq, Repr

/-- The `Keys` interface of src/types.ts: name, token kind, required flag. -/
structure Keys where
  name : String
  type : KeyKind
  required : Bool
deriving DecidableEq, Repr

mutual
/-- src/utils.ts `processTokens`: a fold over the token sequence.
Parameters and wildcards are appended to the accumulator; groups recurse
with `isInsideGroup = true`. -/
def processTokens : Tokens → Bool → List Keys → List Keys
  | .nil, _, parameters => parameters
  | .cons token rest, isInsideGroup, parameters =>
    processTokens rest isInsideGroup (processToken token isInsideGroup parameters)

/-- The body of the `forEach` callback in src/utils.ts `processTokens`. -/
def processToken : Token → Bool → List Keys → List Keys
  | .param n, isInsideGroup, parameters =>
    parameters ++ [⟨n, .param, !isInsideGroup⟩]
  | .wildcard n, isInsideGroup, parameters =>
    parameters ++ [⟨n, .wildcard, !isInsideGroup⟩]
  | .group tokens, _, parameters => processTokens tokens true parameters
  | .text _, _, parameters => parameters
end

/-- src/utils.ts `parseKeys`. -/
def parseKeys (tokens : Tokens) : List Keys :=
  processTokens tokens false []

/-- src/utils.ts `isHTTPMethod`. -/
def isHTTPMethod (method : String) : Bool :=
  ["get", "post", "put", "patch", "delete", "options", "head", "trace"].contains method

/-! ### OpenAPI data (the fragment of `openapi-types` the source observes) -/

structure SchemaTy where
  type : String
deriving DecidableEq, Repr

/-- A parameter object (or `$ref` object, which has no `name`).  Absent JS
fields are `none`; `Object.assign` merging only ever overrides present
fields. -/
structure Param where
  name : Option String := none
  «in» : Option String := none
  required : Option Bool := none
  schema : Option SchemaTy := none
  description : Option String := none
deriving DecidableEq, Repr

/-- src/utils.ts `isParameterObject`: `'name' in schema`. -/
def isParameterObject (p : Param) : Bool := p.name.isSome

/-- The fragment of `OpenAPIV3.OperationObject` the generator reads or
writes. -/
structure Operation where
  summary : Option String := none
  description : Option String := none
  parameters : Option (List Param) := none
  responses : List (String × String) := []
deriving DecidableEq, Repr

/-- The declared-parameter search of `getParams`
(`schema.parameters && schema.parameters.find(...)`). -/
def findDeclaredParam (parameters : Option (List Param)) (keyName : String) : Option Param :=
  match parameters with
  | none => none
  | some ps =>
    ps.find? fun p =>
      isParameterObject p && p.name == some keyName && p.«in» == some "path"

/-- The `Object.assign(defaults, param || {})` merge of `getParams`. -/
def assignParam (base p : Param) : Param :=
  ⟨oAssign base.name p.name, oAssign base.«in» p.«in», oAssign base.required p.required,
   oAssign base.schema p.schema, oAssign base.description p.description⟩

/-- The synthesized default parameter object of `getParams`:
`{name: k.name, in: 'path', required: k.required, schema: {type: 'string'}}`. -/
def defaultParam (k : Keys) : Param :=
  ⟨some k.name, some "path", some k.required, some ⟨"string"⟩, none⟩

/-- One step of the `keys.map(...)` body of `getParams`: the default
parameter object, merged under any matching declared path parameter. -/
def mkParam1 (schema : Operation) (k : Keys) : Param :=
  match findDeclaredParam schema.parameters k.name with
  | none => defaultParam k
  | some p => assignParam (defaultParam k) p

/-- The `keys.map(...)` body of `getParams`: one parameter object per
key. -/
def mkParams (schema : Operation) (keys : List Keys) : List Param :=
  keys.map (mkParam1 schema)

/-! ### src/errors.ts -/

structure RouterInfo where
  name : String
  path : String
  stackSize : Nat
deriving DecidableEq, Repr

structure PathInfo where
  attemptedPath : String
  routerName : String
deriving DecidableEq, Repr

/-- The two error classes: `RouterRegistrationError` carries `RouterInfo`
(layer name, current path, stack size of the unregistered router);
`WildcardPathError` carries `PathInfo` (attempted path, layer name). -/
inductive GenError where
  | routerRegistration (info : RouterInfo)
  | wildcardPath (info : PathInfo)
deriving DecidableEq, Repr

/-! ### Express router structures (src/types.ts `Layer`, external shape)

A layer's `handle` is either a plain handler or a router (a function that
exposes a `stack`); numeric identities stand for JS object references. -/

mutual
inductive Layer where
  | mk (name : String) (handle : Handle) (method : String) (route : Option Route)

inductive Handle where
  | handler (id : Nat)
  | router (id : Nat) (stack : List Layer)

inductive Route where
  | mk (path : String ⊕ List String) (stack : List Layer)
end

def Layer.name : Layer → String
  | .mk n _ _ _ => n

def Layer.handle : Layer → Handle
  | .mk _ h _ _ => h

def Layer.method : Layer → String
  | .mk _ _ m _ => m

def Layer.route : Layer → Option Route
  | .mk _ _ _ r => r

def Route.path : Route → String ⊕ List String
  | .mk p _ => p

def Route.stack : Route → List Layer
  | .mk _ s => s

/-- src/utils.ts `isRouter`: a handle that (structurally) exposes a
`stack`. -/
def isRouter : Handle → Bool
  | .router _ _ => true
  | .handler _ => false

/-- Map key of a handle: distinct JS objects have distinct keys, and a
handler is never the same object as a router. -/
def Handle.key : Handle → Nat ⊕ Nat
  | .handler i => Sum.inl i
  | .router i _ => Sum.inr i

/-! ### src/generator.ts `OpenAPIGenerator` -/

/-- The mutable document: base metadata is fixed at construction, so only
the `paths` mapping (path template → lowercase method → operation) is
carried. -/
structure Doc where
  paths : List (String × List (String × Operation))
deriving DecidableEq, Repr

/-- The private state of an `OpenAPIGenerator` instance. -/
structure GenState where
  doc : Doc
  basePath : String
  schemaMap : List ((Nat ⊕ Nat) × Operation)
  routerMap : List (Nat × String)
deriving DecidableEq, Repr

/-- The constructor-relevant fragment of the base document. -/
structure BaseDoc where
  servers : Option (List String) := none
  paths : List (String × List (String × Operation)) := []

/-- The `OpenAPIGenerator` constructor: `Object.assign(minDoc, baseDoc)`
keeps the caller's `paths`, and `basePath` is
`baseDoc.servers?.[0].url ?? '/'`.  When `servers` is present but empty
the JS constructor throws a `TypeError` (reading `.url` of `undefined`),
modelled as `none`. -/
def mkGenerator (baseDoc : BaseDoc) : Option GenState :=
  match baseDoc.servers with
  | some [] => none
  | some (u :: _) => some ⟨⟨baseDoc.paths⟩, u, [], []⟩
  | none => some ⟨⟨baseDoc.paths⟩, "/", [], []⟩

/-- src/generator.ts `addSchema`. -/
def addSchema (st : GenState) (handler : Nat ⊕ Nat) (schema : Operation) : GenState :=
  { st with schemaMap := setEntry handler schema st.schemaMap }

/-- src/generator.ts `registerRouter`. -/
def registerRouter (st : GenState) (rid : Nat) (path : String) : GenState :=
  { st with routerMap := setEntry rid path st.routerMap }

/-- src/generator.ts `getParams`.  Strips the base path, skips layers
whose handle has no registered schema or whose lowercased method is not a
supported HTTP verb, throws `WildcardPathError` on wildcard tokens, and
otherwise records the operation (with synthesized/merged path parameters)
under the rewritten path and method, also writing the enriched operation
back into the schema map. -/
def getParams (st : GenState) (path0 : String) (layer : Layer) :
    Except (GenError × GenState) GenState :=
  let path := stripBase st.basePath path0
  match alookup layer.handle.key st.schemaMap with
  | none => .ok st
  | some schema =>
    let method := lowerStr layer.method
    if isHTTPMethod method then
      let keys := parseKeys (PathToRegexp.parse path)
      if (keys.find? fun k => k.type == KeyKind.wildcard).isSome then
        .error (.wildcardPath ⟨path, layer.name⟩, st)
      else
        let operation := { schema with parameters := some (mkParams schema keys) }
        let newPath := toOpenAPIPath path
        let pathObj := (alookup newPath st.doc.paths).getD []
        let pathObj2 := setEntry method operation pathObj
        .ok { st with
                doc := ⟨setEntry newPath pathObj2 st.doc.paths⟩,
                schemaMap := setEntry layer.handle.key operation st.schemaMap }
    else .ok st

mutual
/-- src/generator.ts `recurseStack`: run `getParams` on the layer, then
handle a mounted sub-router (`layer.name === 'router' && isRouter(handle)`;
a missing — or empty, hence falsy — mount registration throws
`RouterRegistrationError`), then recurse into the layer's route: fan-out
for an array path (targeting the first stack layer with a registered
schema only), full-stack recursion for a single string path. -/
def recurseStack : Nat → GenState → String → Layer → Except (GenError × GenState) GenState
  | 0, st, _, _ => .ok st
  | fuel + 1, st, path, layer => do
    let st1 ← getParams st path layer
    let st2 ←
      match layer.handle with
      | Handle.router rid stack =>
        if layer.name = "router" then
          match alookup rid st1.routerMap with
          | none => .error (.routerRegistration ⟨layer.name, path, stack.length⟩, st1)
          | some routerPath =>
            if routerPath = "" then
              .error (.routerRegistration ⟨layer.name, path, stack.length⟩, st1)
            else recurseList fuel st1 (path ++ routerPath) stack
        else pure st1
      | Handle.handler _ => pure st1
    match layer.route with
    | none => .ok st2
    | some route =>
      match route.path with
      | Sum.inr ps =>
        match route.stack.find? (fun l => (alookup l.handle.key st2.schemaMap).isSome) with
        | none => .ok st2
        | some schemaLayer => recursePaths fuel st2 path ps schemaLayer
      | Sum.inl p => recurseList fuel st2 (path ++ p) route.stack

/-- `stack.forEach(l => this.recurseStack(path, l))` threading the state.
Fuel is decremented on every recursive call (any fuel at least the total
number of layers and route-path entries in the tree is sufficient). -/
def recurseList : Nat → GenState → String → List Layer → Except (GenError × GenState) GenState
  | 0, st, _, _ => .ok st
  | _ + 1, st, _, [] => .ok st
  | fuel + 1, st, path, l :: ls => do
    let st' ← recurseStack fuel st path l
    recurseList fuel st' path ls

/-- `route.path.forEach(p => this.recurseStack(path + p, schemaLayer))`. -/
def recursePaths : Nat → GenState → String → List String → Layer →
    Except (GenError × GenState) GenState
  | 0, st, _, _, _ => .ok st
  | _ + 1, st, _, [], _ => .ok st
  | fuel + 1, st, path, p :: ps, layer => do
    let st' ← recurseStack fuel st (path ++ p) layer
    recursePaths fuel st' path ps layer
end

/-- src/generator.ts `initializeDoc`: walk every top-level layer with the
empty starting prefix (a root router is represented by its stack; the root
router's own identity is never consulted). -/
def initializeDoc (fuel : Nat) (st : GenState) (router : Option (List Layer)) :
    Except (GenError × GenState) GenState :=
  match router with
  | some stack => recurseList fuel st "" stack
  | none => .ok st

/-! ### Specification-side view of the token flattening

`keysSpec`/`keyOfTok` restate the collection as a structural flattening:
a direct `param`/`wildcard` token contributes one key whose `required`
flag is the negation of the group flag, and a group contributes the keys
of its contents collected with the flag forced to `true`.  The theorem
`processTokens_spec` identifies this with the accumulator-passing
source function. -/

mutual
def keysSpec : Tokens → Bool → List Keys
  | .nil, _ => []
  | .cons t ts, isInsideGroup => keyOfTok t isInsideGroup ++ keysSpec ts isInsideGroup

def keyOfTok : Token → Bool → List Keys
  | .text _, _ => []
  | .param n, isInsideGroup => [⟨n, .param, !isInsideGroup⟩]
  | .wildcard n, isInsideGroup => [⟨n, .wildcard, !isInsideGroup⟩]
  | .group ts, _ => keysSpec ts true
end

/-! ### An abstract syntax for wildcard-free paths

For the marker-translation property: a path made of literal chunks,
positional markers `:name`, and group-wrapped markers `{:name}`.
`segsOk` captures the syntactic side conditions under which the rendered
string is unambiguous for the two regex rewrites: marker names are
nonempty `\w+` runs, literal chunks are nonempty and contain neither `:`
nor `{`, and a literal chunk directly following a marker does not start
with a `\w` character (otherwise the `\w+` of the regex would absorb it). -/

inductive Seg where
  | lit (s : String)
  | mark (n : String)
  | gmark (n : String)

def renderSeg : Seg → List Char
  | .lit s => s.data
  | .mark n => ':' :: n.data
  | .gmark n => '{' :: ':' :: (n.data ++ ['}'])

def renderList : List Seg → List Char
  | [] => []
  | s :: rest => renderSeg s ++ renderList rest

/-- The rendered framework-native path string. -/
def renderPath (segs : List Seg) : String := ⟨renderList segs⟩

/-- The expected output: each marker (group-wrapped or not) becomes a
brace-delimited name, in order; literal chunks are untouched. -/
def renderBraced : List Seg → List Char
  | [] => []
  | .lit s :: rest => s.data ++ renderBraced rest
  | .mark n :: rest => '{' :: (n.data ++ '}' :: renderBraced rest)
  | .gmark n :: rest => '{' :: (n.data ++ '}' :: renderBraced rest)

/-- The intermediate form after the first rewrite: every group-wrapped
marker normalized to a plain marker. -/
def normalizeSeg : Seg → Seg
  | .lit s => .lit s
  | .mark n => .mark n
  | .gmark n => .mark n

def litOk (s : String) : Bool :=
  !s.data.isEmpty && s.data.all fun c => !(c = ':') && !(c = '{')

def nameOkB (n : String) : Bool := !n.data.isEmpty && n.data.all wordChar

/-- After a marker, the rendered continuation must not start with a `\w`
character. -/
def headNotWord : List Seg → Bool
  | [] => true
  | .lit s :: _ =>
    match s.data with
    | [] => false
    | c :: _ => !wordChar c
  | .mark _ :: _ => true
  | .gmark _ :: _ => true

def segsOk : List Seg → Bool
  | [] => true
  | .lit s :: rest => litOk s && segsOk rest
  | .mark n :: rest => nameOkB n && headNotWord rest && segsOk rest
  | .gmark n :: rest => nameOkB n && headNotWord rest && segsOk rest

/-! ### Projections and concrete scenarios used by the theorems -/

/-- Successful result of a traversal, if any. -/
def okState (r : Except (GenError × GenState) GenState) : Option GenState :=
  match r with
  | .ok s => some s
  | .error _ => none

/-- The operation recorded in a document under a path key and a method. -/
def docPathOp (s : GenState) (key m : String) : Option Operation :=
  (alookup key s.doc.paths).bind (alookup m)

/-- Fallback state for reading constructor results (never actually used:
the constructors below all succeed). -/
def emptyState : GenState := ⟨⟨[]⟩, "", [], []⟩

/-- Scenario for the `/users/:id` example: a base document with no
declared servers, one handler with schema `{responses: {"200":
{description: "ok"}}}` registered, a route `'/users/:id'` whose stack
holds that handler. -/
def c3schema : Operation := { responses := [("200", "ok")] }

def c3inner : Layer := .mk "handle" (.handler 0) "get" none

def c3top : Layer := .mk "route" (.handler 99) "" (some (.mk (Sum.inl "/users/:id") [c3inner]))

def c3st : GenState :=
  addSchema ((mkGenerator { servers := none }).getD emptyState) (Sum.inl 0) c3schema

def c3run : Except (GenError × GenState) GenState := initializeDoc 10 c3st (some [c3top])

/-- Scenario for fan-out: one route bound to `["/a/:x", "/b/:x"]`, whose
stack holds a schema-less middleware layer, then a registered handler,
then a second registered handler (the walker must target only the first
registered one).  The server URL has no path prefix in common with the
routes. -/
def c5schemaA : Operation := { summary := some "S", description := some "D", responses := [("200", "ok")] }

def c5schemaB : Operation := { summary := some "OTHER", responses := [("200", "ok")] }

def c5mw : Layer := .mk "mw" (.handler 50) "get" none

def c5hA : Layer := .mk "handle" (.handler 0) "get" none

def c5hB : Layer := .mk "handle" (.handler 1) "get" none

def c5route : Layer :=
  .mk "route" (.handler 99) "" (some (.mk (Sum.inr ["/a/:x", "/b/:x"]) [c5mw, c5hA, c5hB]))

def c5st : GenState :=
  addSchema
    (addSchema ((mkGenerator { servers := some ["http://localhost:3000"] }).getD emptyState)
      (Sum.inl 0) c5schemaA)
    (Sum.inl 1) c5schemaB

def c5run : Except (GenError × GenState) GenState := initializeDoc 10 c5st (some [c5route])

/-- The operation both fan-out entries must carry. -/
def c5op : Operation :=
  { summary := some "S", description := some "D",
    parameters := some [defaultParam ⟨"x", .param, true⟩], responses := [("200", "ok")] }

/-- Scenario for base-path stripping: server URL `/api/v1`, a route
physically reachable at `/api/v1/test`. -/
def c6schema : Operation := { summary := some "T", responses := [("200", "ok")] }

def c6inner : Layer := .mk "handle" (.handler 0) "get" none

def c6top : Layer := .mk "route" (.handler 99) "" (some (.mk (Sum.inl "/api/v1/test") [c6inner]))

def c6st : GenState :=
  addSchema ((mkGenerator { servers := some ["/api/v1"] }).getD emptyState) (Sum.inl 0) c6schema

def c6run : Except (GenError × GenState) GenState := initializeDoc 10 c6st (some [c6top])

/-- Scenario for sub-router identification: a handle that structurally is
a router (with a registered mount path `/sub` and a nested registered
route), carried once by a layer named `"bound dispatch"` and once by a
layer named `"router"`. -/
def c9schema : Operation := { summary := some "N", responses := [("200", "ok")] }

def c9inner : Layer := .mk "handle" (.handler 0) "get" none

def c9routeLayer : Layer := .mk "route" (.handler 99) "" (some (.mk (Sum.inl "/r/:id") [c9inner]))

def c9handle : Handle := .router 5 [c9routeLayer]

def c9layer : Layer := .mk "bound dispatch" c9handle "" none

def c9named : Layer := .mk "router" c9handle "" none

def c9st : GenState :=
  registerRouter
    (addSchema ((mkGenerator { servers := some ["http://localhost:3000"] }).getD emptyState)
      (Sum.inl 0) c9schema)
    5 "/sub"

/-- Scenario for re-traversal: a sub-router registered at mount path
`/:x` containing a route `{/:x}` — each path compiles on its own in the
host framework, but their concatenation `/:x{/:x}` parses to two
parameters of the same name with different `required` flags. -/
def c7schema : Operation := { responses := [("200", "ok")] }

def c7handler : Layer := .mk "handle" (.handler 0) "get" none

def c7route : Layer := .mk "route" (.handler 99) "" (some (.mk (Sum.inl "{/:x}") [c7handler]))

def c7routerLayer : Layer := .mk "router" (.router 1 [c7route]) "" none

def c7st : GenState :=
  registerRouter
    (addSchema ((mkGenerator { servers := some ["http://localhost:3000"] }).getD emptyState)
      (Sum.inl 0) c7schema)
    1 "/:x"

def c7run1 : Except (GenError × GenState) GenState := initializeDoc 10 c7st (some [c7routerLayer])

def c7run2 : Except (GenError × GenState) GenState :=
  match c7run1 with
  | .ok s1 => initializeDoc 10 s1 (some [c7routerLayer])
  | .error e => .error e

/-- Small states and layers used by witness instantiations. -/
def wSchema : Operation := { responses := [("200", "ok")] }

def w10layer : Layer := .mk "handle" (.handler 0) "PROPFIND" none

def w10st : GenState := addSchema ⟨⟨[]⟩, "/", [], []⟩ (Sum.inl 0) wSchema

def w2layer : Layer := .mk "handle" (.handler 0) "get" none

def w2st : GenState := addSchema ⟨⟨[]⟩, "/api/v1", [], []⟩ (Sum.inl 0) wSchema

def w1inner : Layer := .mk "h" (.handler 42) "get" none

def w1st : GenState := ⟨⟨[]⟩, "/", [], []⟩

def w9st : GenState := ⟨⟨[]⟩, "http://localhost:3000", [], []⟩

/-! ### Traversal traces

For the re-traversal analysis the walk is factored through its list of
`getParams` events.  Which events occur depends only on the router tree,
the mount registrations, and the KEY SET of the schema map (the fan-out
`find?` only asks whether a lookup succeeds), all of which a traversal
preserves — so two traversals from key-set-equal states visit the same
events. -/

def mapKeys (m : List ((Nat ⊕ Nat) × Operation)) : List (Nat ⊕ Nat) := m.map Prod.fst

mutual
/-- The `(path, layer)` arguments of the `getParams` calls a
`recurseStack` call performs, in order (taking the registration-error
branches as producing no further events). -/
def traceStack : Nat → List ((Nat ⊕ Nat) × Operation) → List (Nat × String) → String →
    Layer → List (String × Layer)
  | 0, _, _, _, _ => []
  | fuel + 1, sm, rm, path, layer =>
    (path, layer) ::
    ((match layer.handle with
      | Handle.router rid stack =>
        if layer.name = "router" then
          match alookup rid rm with
          | none => []
          | some routerPath =>
            if routerPath = "" then []
            else traceList fuel sm rm (path ++ routerPath) stack
        else []
      | Handle.handler _ => []) ++
     (match layer.route with
      | none => []
      | some route =>
        match route.path with
        | Sum.inr ps =>
          match route.stack.find? (fun l => (alookup l.handle.key sm).isSome) with
          | none => []
          | some schemaLayer => tracePaths fuel sm rm path ps schemaLayer
        | Sum.inl p => traceList fuel sm rm (path ++ p) route.stack))

def traceList : Nat → List ((Nat ⊕ Nat) × Operation) → List (Nat × String) → String →
    List Layer → List (String × Layer)
  | 0, _, _, _, _ => []
  | _ + 1, _, _, _, [] => []
  | fuel + 1, sm, rm, path, l :: ls =>
    traceStack fuel sm rm path l ++ traceList fuel sm rm path ls

def tracePaths : Nat → List ((Nat ⊕ Nat) × Operation) → List (Nat × String) → String →
    List String → Layer → List (String × Layer)
  | 0, _, _, _, _, _ => []
  | _ + 1, _, _, _, [], _ => []
  | fuel + 1, sm, rm, path, p :: ps, layer =>
    traceStack fuel sm rm (path ++ p) layer ++ tracePaths fuel sm rm path ps layer
end

/-- Replay a list of `getParams` events. -/
def runEvents : GenState → List (String × Layer) → Except (GenError × GenState) GenState
  | st, [] => .ok st
  | st, (p, l) :: es => do
    let st' ← getParams st p l
    runEvents st' es

/-- An event actually writes to the document exactly when its handle has
a registered schema and its lowercased method is a supported verb. -/
def recordedEvent (sm : List ((Nat ⊕ Nat) × Operation)) (e : String × Layer) : Bool :=
  (alookup e.2.handle.key sm).isSome && isHTTPMethod (lowerStr e.2.method)

def recordedOf (sm : List ((Nat ⊕ Nat) × Operation)) (es : List (String × Layer)) :
    List (String × Layer) :=
  es.filter (recordedEvent sm)

def pairwiseDistinct {α : Type} [DecidableEq α] : List α → Bool
  | [] => true
  | x :: xs => !(decide (x ∈ xs)) && pairwiseDistinct xs

/-- The operation `getParams` computes for a handle whose registered
schema is `schema`, at (stripped) path `path'`. -/
def opOf (schema : Operation) (path' : String) : Operation :=
  { schema with
    parameters := some (mkParams schema (parseKeys (PathToRegexp.parse path'))) }

/-- The document key of an event (given the generator's base path). -/
def eventKey (basePath : String) (e : String × Layer) : String :=
  toOpenAPIPath (stripBase basePath e.1)

/-- The parameter names parsed from an event's stripped path. -/
def eventNames (basePath : String) (e : String × Layer) : List String :=
  (parseKeys (PathToRegexp.parse (stripBase basePath e.1))).map Keys.name

/-- Scenario for the idempotence witness: one plain route with one
registered handler. -/
def w7top : Layer := .mk "route" (.handler 99) "" (some (.mk (Sum.inl "/users/:id") [c3inner]))

def w7st0 : GenState :=
  addSchema ((mkGenerator { servers := some ["http://localhost:3000"] }).getD emptyState)
    (Sum.inl 0) wSchema

def w7after : GenState := (okState (initializeDoc 10 w7st0 (some [w7top]))).getD emptyState

/-! ## Theorems -/

/-- Unfolding equation of `getParams` when the handle carries a schema. -/
theorem getParams_some (st : GenState) (path0 : String) (layer : Layer) (schema : Operation)
    (hs : alookup layer.handle.key st.schemaMap = some schema) :
    getParams st path0 layer =
      (if isHTTPMethod (lowerStr layer.method) then
        if ((parseKeys (PathToRegexp.parse (stripBase st.basePath path0))).find?
            fun k => k.type == KeyKind.wildcard).isSome then
          .error (.wildcardPath ⟨stripBase st.basePath path0, layer.name⟩, st)
        else
          .ok { st with
                  doc := ⟨setEntry (toOpenAPIPath (stripBase st.basePath path0))
                    (setEntry (lowerStr layer.method)
                      (opOf schema (stripBase st.basePath path0))
                      ((alookup (toOpenAPIPath (stripBase st.basePath path0))
                        st.doc.paths).getD []))
                    st.doc.paths⟩,
                  schemaMap := setEntry layer.handle.key
                    (opOf schema (stripBase st.basePath path0)) st.schemaMap }
       else .ok st) := by
  unfold getParams opOf
  rw [hs]

/-- Unfolding equation of `getParams` when the handle carries no schema. -/
theorem getParams_none (st : GenState) (path0 : String) (layer : Layer)
    (hs : alookup layer.handle.key st.schemaMap = none) :
    getParams st path0 layer = .ok st := by
  unfold getParams
  rw [hs]

/-- C10: a layer whose handle has registered metadata but whose
lowercased method is not one of the eight supported HTTP verbs makes the
metadata-recording step a silent no-op: no error, and the state (output
document and handler registry included) is returned unchanged. -/
theorem getParams_skips_unsupported_method (st : GenState) (path : String) (layer : Layer)
    (schema : Operation)
    (hs : alookup layer.handle.key st.schemaMap = some schema)
    (hm : isHTTPMethod (lowerStr layer.method) = false) :
    getParams st path layer = .ok st := by
  rw [getParams_some st path layer schema hs]
  simp only [hm, Bool.false_eq_true, if_false]

/-- Witness for C10 at a concrete input: method `PROPFIND`. -/
theorem getParams_skips_unsupported_method_witness :
    getParams w10st "/x" w10layer = .ok w10st :=
  getParams_skips_unsupported_method w10st "/x" w10layer wSchema (by decide) (by decide)

/-- C2: when a registered layer's (base-stripped) path parses to at least
one wildcard token, traversal fails with `WildcardPathError` carrying the
offending path and the layer's name, and the error state is the entry
state — nothing was recorded for that route. -/
theorem recurseStack_wildcard_path (fuel : Nat) (st : GenState) (path : String)
    (layer : Layer) (schema : Operation)
    (hs : alookup layer.handle.key st.schemaMap = some schema)
    (hm : isHTTPMethod (lowerStr layer.method) = true)
    (hw : ((parseKeys (PathToRegexp.parse (stripBase st.basePath path))).find?
        fun k => k.type == KeyKind.wildcard).isSome = true) :
    recurseStack (fuel + 1) st path layer =
      .error (.wildcardPath ⟨stripBase st.basePath path, layer.name⟩, st) := by
  have hgp : getParams st path layer =
      .error (.wildcardPath ⟨stripBase st.basePath path, layer.name⟩, st) := by
    rw [getParams_some st path layer schema hs]
    simp only [hm, if_true, hw, if_pos]
  rw [recurseStack, hgp]
  rfl

/-- Witness for C2 at a concrete input: route `/files/*file`. -/
theorem recurseStack_wildcard_path_witness :
    recurseStack 5 w2st "/files/*file" w2layer =
      .error (.wildcardPath ⟨"/files/*file", "handle"⟩, w2st) :=
  recurseStack_wildcard_path 4 w2st "/files/*file" w2layer wSchema (by decide) (by decide)
    (by decide)

/-- C1: a sub-router layer (Express names these `"router"`; routers carry
no operation metadata of their own) reached at an accumulated path with no
prior `registerRouter` entry makes traversal fail with
`RouterRegistrationError` carrying the layer's diagnostic name, the
accumulated path, and the router's stack size; the error state is the
entry state, so no operation from beneath the sub-router was recorded. -/
theorem recurseStack_unregistered_router (fuel : Nat) (st : GenState) (path method : String)
    (rid : Nat) (stack : List Layer) (route : Option Route)
    (hs : alookup (Sum.inr rid) st.schemaMap = none)
    (hr : alookup rid st.routerMap = none) :
    recurseStack (fuel + 1) st path (.mk "router" (.router rid stack) method route) =
      .error (.routerRegistration ⟨"router", path, stack.length⟩, st) := by
  have hgp : getParams st path (.mk "router" (.router rid stack) method route) = .ok st :=
    getParams_none st path _ hs
  rw [recurseStack, hgp]
  simp only [bind, Except.bind, Layer.name, Layer.handle, Layer.route, hr, if_true]

/-- Witness for C1 at a concrete input: unregistered router of stack size
one, reached at path `/pre`. -/
theorem recurseStack_unregistered_router_witness :
    recurseStack 5 w1st "/pre" (.mk "router" (.router 3 [w1inner]) "" none) =
      .error (.routerRegistration ⟨"router", "/pre", 1⟩, w1st) :=
  recurseStack_unregistered_router 4 w1st "/pre" "" 3 [w1inner] none (by decide) (by decide)

/-- Discharging the trailing `pure` of a monadic fold step. -/
theorem except_bind_pure {ε α : Type} (x : Except ε α) :
    (x >>= fun y => Except.ok y) = x := by
  cases x <;> rfl

/-- Counterexample for C9: a layer whose handle structurally exposes a
stack (`isRouter` holds, the mount is registered, and a nested route is
registered) is nevertheless not treated as a sub-router mount when the
layer's name is not `"router"`: traversal returns the state unchanged —
no recursion, no `RouterRegistrationError` — while the very same handle
under a layer named `"router"` is resolved and recursed into. -/
theorem subrouter_check_not_structural_cex :
    isRouter c9layer.handle = true ∧
    recurseStack 10 c9st "" c9layer = .ok c9st ∧
    (okState (recurseStack 10 c9st "" c9named)).map (fun s => s.doc.paths.map Prod.fst) =
      some ["/sub/r/{id}"] :=
  ⟨rfl, rfl, rfl⟩

/-- C9 (amended): a layer with no registered metadata on its handle is
treated as a sub-router mount (mount resolution, recursion, or
`RouterRegistrationError`) precisely when the structural check `isRouter`
succeeds AND the layer's name is the nominal `"router"`; under any other
name the layer is left alone. -/
theorem recurseStack_router_requires_name (fuel : Nat) (st : GenState)
    (path name method : String) (rid : Nat) (stack : List Layer)
    (hs : alookup (Sum.inr rid) st.schemaMap = none) :
    isRouter (Handle.router rid stack) = true ∧
    recurseStack (fuel + 1) st path (.mk name (.router rid stack) method none) =
      (if name = "router" then
        match alookup rid st.routerMap with
        | none => .error (.routerRegistration ⟨name, path, stack.length⟩, st)
        | some routerPath =>
          if routerPath = "" then
            .error (.routerRegistration ⟨name, path, stack.length⟩, st)
          else recurseList fuel st (path ++ routerPath) stack
       else .ok st) := by
  refine ⟨rfl, ?_⟩
  have hgp : getParams st path (.mk name (.router rid stack) method none) = .ok st :=
    getParams_none st path _ hs
  rw [recurseStack, hgp]
  simp only [bind, Except.bind, Layer.name, Layer.handle, Layer.route]
  by_cases hn : name = "router"
  · simp only [hn, if_true]
    cases halt : alookup rid st.routerMap with
    | none => rfl
    | some rp =>
      by_cases hrp : rp = ""
      · simp only [hrp, if_true]
      · simp only [hrp, if_false, if_neg hrp]
        exact except_bind_pure _
  · simp only [hn, if_false, if_neg hn]
    rfl

/-- Witness for the amended C9 at a concrete input: an unregistered empty
router named `"router"`. -/
theorem recurseStack_router_requires_name_witness :
    recurseStack 3 w9st "" (.mk "router" (.router 7 []) "" none) =
      .error (.routerRegistration ⟨"router", "", 0⟩, w9st) := by
  have h := recurseStack_router_requires_name 2 w9st "" "router" "" 7 [] (by decide)
  rw [h.2]
  rfl

/-- Counterexample for C3: with no declared servers the default base path
`/` is stripped from the accumulated path, so the traversal of a route
`/users/:id` succeeds but records no entry under the claimed key
`/users/{id}` (with leading slash). -/
theorem users_id_leading_slash_cex :
    (okState c3run).map (fun s => alookup "/users/{id}" s.doc.paths) = some none :=
  rfl

/-- C3 (amended): with no declared servers, the operation registered as
`{responses: {"200": {description: "ok"}}}` on the handler of route
`/users/:id` is recorded so that `document.paths["users/{id}"].get` — the
default base path `/` having been stripped once, the key lacks the
leading slash — carries exactly one parameter
`{name: "id", in: "path", required: true, schema: {type: "string"}}`. -/
theorem users_id_recorded_amended :
    (okState c3run).bind (fun s => docPathOp s "users/{id}" "get") =
      some { responses := [("200", "ok")],
             parameters := some [defaultParam ⟨"id", .param, true⟩] } :=
  rfl

/-- C5: a single handler bound to `["/a/:x", "/b/:x"]` (behind a
schema-less middleware layer and ahead of a second registered handler)
produces exactly the two document entries `/a/{x}` and `/b/{x}`, both
carrying the same operation — the first registered handler's summary and
description — and the same synthesized parameter named `x`. -/
theorem fanout_array_paths :
    (okState c5run).map (fun s => s.doc.paths.map Prod.fst) = some ["/a/{x}", "/b/{x}"] ∧
    (okState c5run).bind (fun s => docPathOp s "/a/{x}" "get") = some c5op ∧
    (okState c5run).bind (fun s => docPathOp s "/b/{x}" "get") = some c5op :=
  ⟨rfl, rfl, rfl⟩

/-- C6: a declared server URL `/api/v1` is stripped from every
accumulated path that starts with it (the general fact about the
stripping primitive used by `getParams`), and concretely a route
physically reachable at `/api/v1/test` is recorded under document key
`/test`, not `/api/v1/test`. -/
theorem server_base_path_strip :
    (∀ p : String, strStartsWith p "/api/v1" = true →
        stripBase "/api/v1" p = ⟨p.data.drop 7⟩) ∧
    (okState c6run).map (fun s => s.doc.paths.map Prod.fst) = some ["/test"] ∧
    (okState c6run).bind (fun s => docPathOp s "/test" "get") =
      some { summary := some "T", responses := [("200", "ok")], parameters := some [] } ∧
    (okState c6run).bind (fun s => docPathOp s "/api/v1/test" "get") = none := by
  refine ⟨?_, rfl, rfl, rfl⟩
  intro p hp
  have h7 : "/api/v1".data.length = 7 := rfl
  simp [stripBase, hp, h7]

/-- Witness for C6 at a concrete input. -/
theorem server_base_path_strip_witness :
    stripBase "/api/v1" "/api/v1/test" = "/test" :=
  (server_base_path_strip.1 "/api/v1/test" (by decide)).trans rfl

mutual
/-- The accumulator-passing `processTokens` computes the structural
flattening `keysSpec`. -/
theorem processTokens_spec : ∀ (ts : Tokens) (g : Bool) (acc : List Keys),
    processTokens ts g acc = acc ++ keysSpec ts g
  | .nil, g, acc => by simp [processTokens, keysSpec]
  | .cons t ts, g, acc => by
    rw [processTokens, processToken_spec t g acc, processTokens_spec ts g, keysSpec,
      List.append_assoc]

/-- One step of `processTokens` computes `keyOfTok`. -/
theorem processToken_spec : ∀ (t : Token) (g : Bool) (acc : List Keys),
    processToken t g acc = acc ++ keyOfTok t g
  | .text v, g, acc => by simp [processToken, keyOfTok]
  | .param n, g, acc => by simp [processToken, keyOfTok]
  | .wildcard n, g, acc => by simp [processToken, keyOfTok]
  | .group ts, g, acc => by rw [processToken, keyOfTok]; exact processTokens_spec ts true acc
end

mutual
/-- Every key collected under the group flag is not required, at any
nesting depth. -/
theorem keysSpec_group_not_required : ∀ (ts : Tokens) (k : Keys),
    k ∈ keysSpec ts true → k.required = false
  | .nil, k => by intro h; simp [keysSpec] at h
  | .cons t ts, k => by
    intro hk
    rw [keysSpec] at hk
    rcases List.mem_append.mp hk with h | h
    · exact keyOfTok_group_not_required t k h
    · exact keysSpec_group_not_required ts k h

/-- Key-level version of `keysSpec_group_not_required`. -/
theorem keyOfTok_group_not_required : ∀ (t : Token) (k : Keys),
    k ∈ keyOfTok t true → k.required = false
  | .text v, k => by intro h; simp [keyOfTok] at h
  | .param n, k => by
    intro h
    rw [keyOfTok] at h
    simp only [List.mem_singleton] at h
    subst h
    rfl
  | .wildcard n, k => by
    intro h
    rw [keyOfTok] at h
    simp only [List.mem_singleton] at h
    subst h
    rfl
  | .group ts, k => by
    intro h
    rw [keyOfTok] at h
    exact keysSpec_group_not_required ts k h
end

/-- C4: the keys produced by `parseKeys` are the in-order flattening of
the token tree in which a parameter token inside a group construct — at
any depth, the flag being forced on group entry — yields `required =
false`, while a top-level parameter token yields `required = true`; and
the parameter object synthesized by `getParams` from a key (when no
matching parameter was declared) carries exactly that `required` flag. -/
theorem parseKeys_required_iff_grouped :
    (∀ ts : Tokens, parseKeys ts = keysSpec ts false) ∧
    (∀ (ts : Tokens) (k : Keys), k ∈ keysSpec ts true → k.required = false) ∧
    (∀ (n : String) (g : Bool), keyOfTok (.param n) g = [⟨n, .param, !g⟩]) ∧
    (∀ (schema : Operation) (keys : List Keys), schema.parameters = none →
        mkParams schema keys = keys.map defaultParam) ∧
    (∀ k : Keys, (defaultParam k).required = some k.required) := by
  refine ⟨?_, keysSpec_group_not_required, fun n g => rfl, ?_, fun k => rfl⟩
  · intro ts
    rw [parseKeys, processTokens_spec]
    rfl
  · intro schema keys hp
    simp [mkParams, mkParam1, findDeclaredParam, hp]

/-- Witness for C4 at a concrete input: a parameter nested two groups
deep is collected with `required = false`, a top-level one with
`required = true`. -/
theorem parseKeys_required_iff_grouped_witness :
    parseKeys (.cons (.param "a") (.cons (.group (.cons (.group (.cons (.param "x") .nil)) .nil))
        .nil)) =
      [⟨"a", .param, true⟩, ⟨"x", .param, false⟩] ∧
    Keys.required ⟨"x", .param, false⟩ = false := by
  constructor
  · rw [parseKeys_required_iff_grouped.1]
    rfl
  · exact parseKeys_required_iff_grouped.2.1
      (.cons (.group (.cons (.param "x") .nil)) .nil) ⟨"x", .param, false⟩
      (by simp [keysSpec, keyOfTok])

theorem wordChar_ne_brace {c : Char} (h : wordChar c = true) : c ≠ '{' := by
  rintro rfl
  exact absurd h (by decide)

theorem wordChar_ne_colon {c : Char} (h : wordChar c = true) : c ≠ ':' := by
  rintro rfl
  exact absurd h (by decide)

/-- Characters that cannot open a `{:name}` match pass through the first
scanner untouched. -/
theorem replColonGo_append (xs ys : List Char) (h : ∀ c ∈ xs, c ≠ '{') :
    replColonGo (xs ++ ys) = xs ++ replColonGo ys := by
  induction xs with
  | nil => rfl
  | cons x xs ih =>
    rw [List.cons_append, replColonGo, if_neg (h x (List.mem_cons_self x xs)),
      ih fun c hc => h c (List.mem_cons_of_mem x hc)]
    exact (List.cons_append x xs _).symm

/-- A complete `\w+` run followed by `}` closes a `{:name}` match. -/
theorem replColonName_run (xs : List Char) :
    ∀ (rest w : List Char), (∀ c ∈ xs, wordChar c = true) → (w ≠ [] ∨ xs ≠ []) →
      replColonName (xs ++ '}' :: rest) w = ':' :: ((w.reverse ++ xs) ++ replColonGo rest) := by
  induction xs with
  | nil =>
    intro rest w _ hne
    have hw : w ≠ [] := by
      rcases hne with h | h
      · exact h
      · exact absurd rfl h
    rw [List.nil_append, replColonName, if_neg (by decide : ¬wordChar '}' = true),
      if_pos rfl, if_neg hw]
    simp
  | cons x xs ih =>
    intro rest w hxs hne
    have hx : wordChar x = true := hxs x (List.mem_cons_self x xs)
    rw [List.cons_append, replColonName, if_pos hx,
      ih rest (x :: w) (fun c hc => hxs c (List.mem_cons_of_mem x hc)) (Or.inl (by simp))]
    simp

/-- Characters that cannot open a `:name` match pass through the second
scanner untouched. -/
theorem replParamGo_append (xs ys : List Char) (h : ∀ c ∈ xs, c ≠ ':') :
    replParamGo (xs ++ ys) = xs ++ replParamGo ys := by
  induction xs with
  | nil => rfl
  | cons x xs ih =>
    rw [List.cons_append, replParamGo, if_neg (h x (List.mem_cons_self x xs)),
      ih fun c hc => h c (List.mem_cons_of_mem x hc)]
    exact (List.cons_append x xs _).symm

/-- A complete `\w+` run followed by a non-`\w` continuation closes a
`:name` match. -/
theorem replParamName_run (xs : List Char) :
    ∀ (rest w : List Char), (∀ c ∈ xs, wordChar c = true) →
      (∀ c cs, rest = c :: cs → wordChar c = false) → (w ≠ [] ∨ xs ≠ []) →
      replParamName (xs ++ rest) w =
        '{' :: ((w.reverse ++ xs) ++ '}' :: replParamGo rest) := by
  induction xs with
  | nil =>
    intro rest w _ hrest hne
    have hw : w ≠ [] := by
      rcases hne with h | h
      · exact h
      · exact absurd rfl h
    match rest with
    | [] => rw [List.nil_append, replParamName, if_neg hw]; simp [replParamGo]
    | c :: cs =>
      rw [List.nil_append, replParamName,
        if_neg (by rw [hrest c cs rfl]; exact Bool.false_ne_true), if_neg hw, replParamGo]
      simp
  | cons x xs ih =>
    intro rest w hxs hrest hne
    have hx : wordChar x = true := hxs x (List.mem_cons_self x xs)
    rw [List.cons_append, replParamName, if_pos hx,
      ih rest (x :: w) (fun c hc => hxs c (List.mem_cons_of_mem x hc)) hrest
        (Or.inl (by simp))]
    simp

/-- Head character of the rendering of a normalized well-formed suffix is
never a `\w` character when the suffix follows a marker. -/
theorem renderHead_not_word (rest : List Seg) (h : headNotWord rest = true) :
    ∀ c cs, renderList (rest.map normalizeSeg) = c :: cs → wordChar c = false := by
  match rest with
  | [] => intro c cs hc; simp [renderList] at hc
  | .lit s :: rest' =>
    intro c cs hc
    rw [headNotWord] at h
    match hs : s.data with
    | [] => rw [hs] at h; exact absurd h (by decide)
    | c' :: cs' =>
      rw [hs] at h
      simp only [List.map_cons, renderList, normalizeSeg, renderSeg, hs,
        List.cons_append] at hc
      injection hc with h1 _
      rw [← h1]
      simpa using h
  | .mark n :: rest' =>
    intro c cs hc
    simp only [List.map_cons, renderList, normalizeSeg, renderSeg, List.cons_append] at hc
    injection hc with h1 _
    rw [← h1]
    decide
  | .gmark n :: rest' =>
    intro c cs hc
    simp only [List.map_cons, renderList, normalizeSeg, renderSeg, List.cons_append] at hc
    injection hc with h1 _
    rw [← h1]
    decide

/-- First pass over a well-formed rendering: every `{:name}` becomes
`:name`, everything else is untouched. -/
theorem replColonGo_render (segs : List Seg) (h : segsOk segs = true) :
    replColonGo (renderList segs) = renderList (segs.map normalizeSeg) := by
  induction segs with
  | nil => rfl
  | cons s rest ih =>
    match s with
    | .lit s =>
      rw [segsOk, Bool.and_eq_true] at h
      rw [renderList, renderSeg, replColonGo_append _ _ ?_, ih h.2]
      · rfl
      · intro c hc
        have := (Bool.and_eq_true _ _).mp ((List.all_eq_true.mp
          ((Bool.and_eq_true _ _).mp h.1).2) c hc)
        intro heq
        subst heq
        exact absurd this.2 (by decide)
    | .mark n =>
      rw [segsOk, Bool.and_eq_true, Bool.and_eq_true] at h
      obtain ⟨⟨hn, _⟩, hrest⟩ := h
      have hnw : ∀ c ∈ n.data, wordChar c = true :=
        List.all_eq_true.mp ((Bool.and_eq_true _ _).mp hn).2
      rw [renderList, renderSeg, List.cons_append, replColonGo, if_neg (by decide),
        replColonGo_append _ _ (fun c hc => wordChar_ne_brace (hnw c hc)), ih hrest]
      rfl
    | .gmark n =>
      rw [segsOk, Bool.and_eq_true, Bool.and_eq_true] at h
      obtain ⟨⟨hn, _⟩, hrest⟩ := h
      have hnw : ∀ c ∈ n.data, wordChar c = true :=
        List.all_eq_true.mp ((Bool.and_eq_true _ _).mp hn).2
      have hne : n.data ≠ [] := by
        have := ((Bool.and_eq_true _ _).mp hn).1
        simpa using this
      rw [renderList, renderSeg]
      have hshape : (('{' :: ':' :: (n.data ++ ['}'])) ++ renderList rest) =
          '{' :: ':' :: (n.data ++ '}' :: renderList rest) := by simp
      rw [hshape, replColonGo, if_pos rfl, replColonBrace, if_neg (by decide), if_pos rfl,
        replColonName_run n.data (renderList rest) [] hnw (Or.inr hne), ih hrest]
      rfl

/-- Second pass over the normalized rendering: every `:name` becomes
`{name}`, so markers correspond 1:1 and in order. -/
theorem replParamGo_render (segs : List Seg) (h : segsOk segs = true) :
    replParamGo (renderList (segs.map normalizeSeg)) = renderBraced segs := by
  induction segs with
  | nil => rfl
  | cons s rest ih =>
    match s with
    | .lit s =>
      rw [segsOk, Bool.and_eq_true] at h
      rw [List.map_cons, renderList, normalizeSeg, renderSeg,
        replParamGo_append _ _ ?_, ih h.2, renderBraced]
      intro c hc
      have := (Bool.and_eq_true _ _).mp ((List.all_eq_true.mp
        ((Bool.and_eq_true _ _).mp h.1).2) c hc)
      intro heq
      subst heq
      exact absurd this.1 (by decide)
    | .mark n =>
      rw [segsOk, Bool.and_eq_true, Bool.and_eq_true] at h
      obtain ⟨⟨hn, hhead⟩, hrest⟩ := h
      have hnw : ∀ c ∈ n.data, wordChar c = true :=
        List.all_eq_true.mp ((Bool.and_eq_true _ _).mp hn).2
      have hne : n.data ≠ [] := by
        have := ((Bool.and_eq_true _ _).mp hn).1
        simpa using this
      rw [List.map_cons, renderList, normalizeSeg, renderSeg, List.cons_append, replParamGo,
        if_pos rfl, replParamName_run n.data _ [] hnw (renderHead_not_word rest hhead)
          (Or.inr hne), ih hrest, renderBraced]
      simp
    | .gmark n =>
      rw [segsOk, Bool.and_eq_true, Bool.and_eq_true] at h
      obtain ⟨⟨hn, hhead⟩, hrest⟩ := h
      have hnw : ∀ c ∈ n.data, wordChar c = true :=
        List.all_eq_true.mp ((Bool.and_eq_true _ _).mp hn).2
      have hne : n.data ≠ [] := by
        have := ((Bool.and_eq_true _ _).mp hn).1
        simpa using this
      rw [List.map_cons, renderList, normalizeSeg, renderSeg, List.cons_append, replParamGo,
        if_pos rfl, replParamName_run n.data _ [] hnw (renderHead_not_word rest hhead)
          (Or.inr hne), ih hrest, renderBraced]
      simp

/-- C8: over every wildcard-free path built from literal chunks and
(possibly group-wrapped) positional markers, the first rewrite normalizes
exactly the group-wrapped markers to plain markers, and the composed
two-pass rewrite used for the recorded document key turns every marker —
group-wrapped ones included — into the brace-delimited name, 1:1 and in
input order. -/
theorem toOpenAPIPath_translates_markers (segs : List Seg) (h : segsOk segs = true) :
    replColonStr (renderPath segs) = renderPath (segs.map normalizeSeg) ∧
    toOpenAPIPath (renderPath segs) = ⟨renderBraced segs⟩ := by
  constructor
  · show String.mk (replColonGo (renderList segs)) = _
    rw [replColonGo_render segs h]
    rfl
  · show String.mk (replParamGo (replColonGo (renderList segs))) = _
    rw [replColonGo_render segs h, replParamGo_render segs h]

/-- Witness for C8 at a concrete input: `/users/{:id}/x` translates to
`/users/{id}/x`. -/
theorem toOpenAPIPath_translates_markers_witness :
    toOpenAPIPath (renderPath [Seg.lit "/users/", Seg.gmark "id", Seg.lit "/x"]) =
      ⟨renderBraced [Seg.lit "/users/", Seg.gmark "id", Seg.lit "/x"]⟩ :=
  (toOpenAPIPath_translates_markers [Seg.lit "/users/", Seg.gmark "id", Seg.lit "/x"]
    (by decide)).2

/-- Counterexample for C7: mounting a router at `/:x` (each component
path is valid on its own in the host framework) whose route is `{/:x}`
makes the accumulated path parse to two same-named parameters with
different `required` flags; the second traversal then resolves both
against the first recorded parameter and rewrites the entry — the
document after two calls is not structurally equal to the document after
one. -/
theorem initializeDoc_not_idempotent_cex :
    (okState c7run1).bind (fun s => docPathOp s "/{x}{/{x}}" "get") =
      some { responses := [("200", "ok")],
             parameters := some [defaultParam ⟨"x", .param, true⟩,
               defaultParam ⟨"x", .param, false⟩] } ∧
    (okState c7run2).bind (fun s => docPathOp s "/{x}{/{x}}" "get") =
      some { responses := [("200", "ok")],
             parameters := some [defaultParam ⟨"x", .param, true⟩,
               defaultParam ⟨"x", .param, true⟩] } ∧
    (okState c7run2).bind (fun s => docPathOp s "/{x}{/{x}}" "get") ≠
      (okState c7run1).bind (fun s => docPathOp s "/{x}{/{x}}" "get") :=
  ⟨rfl, rfl, by decide⟩

/-! ### Association-list algebra -/

theorem alookup_setEntry_self {κ α : Type} [DecidableEq κ] (k : κ) (v : α)
    (m : List (κ × α)) : alookup k (setEntry k v m) = some v := by
  induction m with
  | nil => simp [setEntry, alookup]
  | cons e m ih =>
    obtain ⟨a, b⟩ := e
    by_cases h : a = k
    · simp [setEntry, h, alookup]
    · simp [setEntry, h, alookup, ih]

theorem alookup_setEntry_ne {κ α : Type} [DecidableEq κ] {k k' : κ} (v : α)
    (m : List (κ × α)) (h : k' ≠ k) : alookup k' (setEntry k v m) = alookup k' m := by
  induction m with
  | nil =>
    simp only [setEntry, alookup, if_neg (fun hh : k = k' => h hh.symm)]
  | cons e m ih =>
    obtain ⟨a, b⟩ := e
    by_cases ha : a = k
    · subst ha
      rw [setEntry, if_pos rfl, alookup, if_neg (fun hh : a = k' => h hh.symm),
        alookup, if_neg (fun hh : a = k' => h hh.symm)]
    · rw [setEntry, if_neg ha]
      by_cases ha' : a = k'
      · rw [alookup, if_pos ha', alookup, if_pos ha']
      · rw [alookup, if_neg ha', alookup, if_neg ha', ih]

theorem setEntry_self {κ α : Type} [DecidableEq κ] (k : κ) (v : α)
    (m : List (κ × α)) (h : alookup k m = some v) : setEntry k v m = m := by
  induction m with
  | nil => simp [alookup] at h
  | cons e m ih =>
    obtain ⟨a, b⟩ := e
    by_cases ha : a = k
    · subst ha
      rw [alookup, if_pos rfl] at h
      injection h with hbv
      rw [setEntry, if_pos rfl, hbv]
    · rw [alookup, if_neg ha] at h
      rw [setEntry, if_neg ha, ih h]

theorem setEntry_map_fst {κ α : Type} [DecidableEq κ] (k : κ) (v : α)
    (m : List (κ × α)) (h : (alookup k m).isSome = true) :
    (setEntry k v m).map Prod.fst = m.map Prod.fst := by
  induction m with
  | nil => simp [alookup] at h
  | cons e m ih =>
    obtain ⟨a, b⟩ := e
    by_cases ha : a = k
    · subst ha
      simp [setEntry]
    · simp only [alookup, if_neg ha] at h
      simp [setEntry, ha, ih h]

theorem alookup_isSome_iff_mem {κ α : Type} [DecidableEq κ] (k : κ) (m : List (κ × α)) :
    (alookup k m).isSome = true ↔ k ∈ m.map Prod.fst := by
  induction m with
  | nil => simp [alookup]
  | cons e m ih =>
    obtain ⟨a, b⟩ := e
    by_cases ha : a = k
    · subst ha
      simp [alookup]
    · rw [alookup, if_neg ha, List.map_cons, List.mem_cons]
      constructor
      · intro hh
        exact Or.inr (ih.mp hh)
      · intro hh
        rcases hh with hh | hh
        · exact absurd hh.symm ha
        · exact ih.mpr hh

theorem alookup_isSome_congr {κ α : Type} [DecidableEq κ] (k : κ) (m1 m2 : List (κ × α))
    (h : m1.map Prod.fst = m2.map Prod.fst) :
    (alookup k m1).isSome = (alookup k m2).isSome := by
  by_cases h2 : k ∈ m2.map Prod.fst
  · rw [(alookup_isSome_iff_mem k m1).mpr (h ▸ h2), (alookup_isSome_iff_mem k m2).mpr h2]
  · have e1 : ¬(alookup k m1).isSome = true := fun hh =>
      h2 (h ▸ (alookup_isSome_iff_mem k m1).mp hh)
    have e2 : ¬(alookup k m2).isSome = true := fun hh =>
      h2 ((alookup_isSome_iff_mem k m2).mp hh)
    rw [Bool.not_eq_true] at e1 e2
    rw [e1, e2]

theorem find?_congr {α : Type} (p q : α → Bool) (h : ∀ a, p a = q a) :
    ∀ l : List α, l.find? p = l.find? q
  | [] => rfl
  | a :: l => by
    rw [List.find?_cons, List.find?_cons, h a, find?_congr p q h l]

/-- Decomposition of a successful monadic bind over `Except`. -/
theorem except_bind_ok_iff {ε α β : Type} (x : Except ε α) (f : α → Except ε β) (b : β) :
    (x >>= f) = .ok b ↔ ∃ a, x = .ok a ∧ f a = .ok b := by
  cases x with
  | error e => simp [Bind.bind, Except.bind]
  | ok a => simp [Bind.bind, Except.bind]

/-- Replaying a concatenation of event lists. -/
theorem runEvents_append (es1 : List (String × Layer)) :
    ∀ (st : GenState) (es2 : List (String × Layer)),
      runEvents st (es1 ++ es2) = (runEvents st es1) >>= fun s => runEvents s es2 := by
  induction es1 with
  | nil => intro st es2; simp [runEvents, Bind.bind, Except.bind]
  | cons e es ih =>
    intro st es2
    obtain ⟨p, l⟩ := e
    cases hgp : getParams st p l with
    | error err => simp [runEvents, hgp, Bind.bind, Except.bind]
    | ok st' => simp [runEvents, hgp, Bind.bind, Except.bind, ih]

/-- A non-recorded event is a no-op. -/
theorem getParams_not_recorded (st : GenState) (p : String) (l : Layer)
    (h : recordedEvent st.schemaMap (p, l) = false) : getParams st p l = .ok st := by
  cases hlk : alookup l.handle.key st.schemaMap with
  | none => exact getParams_none st p l hlk
  | some s =>
    rw [getParams_some st p l s hlk]
    have hm : isHTTPMethod (lowerStr l.method) = false := by
      simpa [recordedEvent, hlk] using h
    simp [hm]

/-- A successful `getParams` preserves the base path, the router map,
and the key set of the schema map. -/
theorem getParams_ok_pres (st : GenState) (p : String) (l : Layer) (st' : GenState)
    (h : getParams st p l = .ok st') :
    st'.basePath = st.basePath ∧ st'.routerMap = st.routerMap ∧
      mapKeys st'.schemaMap = mapKeys st.schemaMap := by
  cases hlk : alookup l.handle.key st.schemaMap with
  | none =>
    rw [getParams_none st p l hlk] at h
    injection h with h'
    subst h'
    exact ⟨rfl, rfl, rfl⟩
  | some s =>
    rw [getParams_some st p l s hlk] at h
    by_cases hm : isHTTPMethod (lowerStr l.method)
    · rw [if_pos hm] at h
      by_cases hw : ((parseKeys (PathToRegexp.parse (stripBase st.basePath p))).find?
          fun k => k.type == KeyKind.wildcard).isSome
      · rw [if_pos hw] at h
        exact Except.noConfusion h
      · rw [if_neg hw] at h
        injection h with h'
        subst h'
        refine ⟨rfl, rfl, ?_⟩
        simp only [mapKeys]
        exact setEntry_map_fst _ _ _ (by rw [hlk]; rfl)
    · rw [if_neg hm] at h
      injection h with h'
      subst h'
      exact ⟨rfl, rfl, rfl⟩

/-- If `getParams` succeeds from one state it succeeds from any state
with the same base path, router map, and schema-map key set (success only
depends on key membership, the method, and the stripped path). -/
theorem getParams_sim (sa sb : GenState) (p : String) (l : Layer) (sa' : GenState)
    (h : getParams sa p l = .ok sa')
    (hbp : sb.basePath = sa.basePath)
    (hkeys : mapKeys sb.schemaMap = mapKeys sa.schemaMap) :
    ∃ sb', getParams sb p l = .ok sb' := by
  cases hlkb : alookup l.handle.key sb.schemaMap with
  | none => exact ⟨sb, getParams_none sb p l hlkb⟩
  | some s' =>
    have hsomea : (alookup l.handle.key sa.schemaMap).isSome = true := by
      have := alookup_isSome_congr l.handle.key sb.schemaMap sa.schemaMap hkeys
      rw [← this, hlkb]
      rfl
    obtain ⟨s, hlka⟩ := Option.isSome_iff_exists.mp hsomea
    rw [getParams_some sb p l s' hlkb]
    by_cases hm : isHTTPMethod (lowerStr l.method)
    · by_cases hw : ((parseKeys (PathToRegexp.parse (stripBase sb.basePath p))).find?
          fun k => k.type == KeyKind.wildcard).isSome
      · rw [getParams_some sa p l s hlka, if_pos hm] at h
        rw [hbp] at hw
        rw [if_pos hw] at h
        exact Except.noConfusion h
      · rw [if_pos hm, if_neg hw]
        exact ⟨_, rfl⟩
    · rw [if_neg hm]
      exact ⟨sb, rfl⟩

/-- The traversal trace only depends on the schema map through its key
set. -/
theorem trace_congr : ∀ (fuel : Nat) (sm1 sm2 : List ((Nat ⊕ Nat) × Operation))
    (rm : List (Nat × String)), mapKeys sm1 = mapKeys sm2 →
    (∀ path l, traceStack fuel sm1 rm path l = traceStack fuel sm2 rm path l) ∧
    (∀ path ls, traceList fuel sm1 rm path ls = traceList fuel sm2 rm path ls) ∧
    (∀ path ps l, tracePaths fuel sm1 rm path ps l = tracePaths fuel sm2 rm path ps l) := by
  intro fuel
  induction fuel with
  | zero => exact fun sm1 sm2 rm h => ⟨fun _ _ => rfl, fun _ _ => rfl, fun _ _ _ => rfl⟩
  | succ fuel ih =>
    intro sm1 sm2 rm h
    obtain ⟨ihS, ihL, ihP⟩ := ih sm1 sm2 rm h
    have hfind : ∀ stack : List Layer,
        stack.find? (fun l => (alookup l.handle.key sm1).isSome) =
          stack.find? (fun l => (alookup l.handle.key sm2).isSome) := fun stack =>
      find?_congr _ _ (fun a => alookup_isSome_congr a.handle.key sm1 sm2 h) stack
    refine ⟨?_, ?_, ?_⟩
    · intro path l
      rw [traceStack, traceStack]
      congr 1
      congr 1
      · cases l.handle with
        | handler i => rfl
        | router rid stack =>
          by_cases hn : l.name = "router"
          · simp only [hn, if_true]
            cases alookup rid rm with
            | none => rfl
            | some rp =>
              by_cases hrp : rp = ""
              · simp [hrp]
              · simp [hrp, ihL]
          · simp [hn]
      · cases l.route with
        | none => rfl
        | some route =>
          cases hp : route.path with
          | inl p =>
            simp only [hp]
            exact ihL _ _
          | inr ps =>
            simp only [hp, hfind route.stack]
            cases route.stack.find? (fun l => (alookup l.handle.key sm2).isSome) with
            | none => rfl
            | some sl => exact ihP _ _ _
    · intro path ls
      cases ls with
      | nil => rfl
      | cons l ls => rw [traceList, traceList, ihS, ihL]
    · intro path ps l
      cases ps with
      | nil => rfl
      | cons p ps => rw [tracePaths, tracePaths, ihS, ihP]

/-- Replaying events preserves base path, router map, and schema-map key
set. -/
theorem runEvents_ok_pres : ∀ (es : List (String × Layer)) (st st' : GenState),
    runEvents st es = .ok st' →
    st'.basePath = st.basePath ∧ st'.routerMap = st.routerMap ∧
      mapKeys st'.schemaMap = mapKeys st.schemaMap := by
  intro es
  induction es with
  | nil =>
    intro st st' h
    injection h with h'
    subst h'
    exact ⟨rfl, rfl, rfl⟩
  | cons e es ih =>
    intro st st' h
    obtain ⟨p, l⟩ := e
    rw [runEvents] at h
    obtain ⟨s1, hgp, hrest⟩ := (except_bind_ok_iff _ _ _).mp h
    obtain ⟨b1, r1, k1⟩ := getParams_ok_pres st p l s1 hgp
    obtain ⟨b2, r2, k2⟩ := ih s1 st' hrest
    exact ⟨b2.trans b1, r2.trans r1, k2.trans k1⟩

/-- If a replay succeeds from one state it succeeds from any state with
the same base path and schema-map key set. -/
theorem runEvents_sim : ∀ (es : List (String × Layer)) (sa sb sa' : GenState),
    runEvents sa es = .ok sa' →
    sb.basePath = sa.basePath → mapKeys sb.schemaMap = mapKeys sa.schemaMap →
    ∃ sb', runEvents sb es = .ok sb' := by
  intro es
  induction es with
  | nil => exact fun sa sb sa' h hbp hkeys => ⟨sb, rfl⟩
  | cons e es ih =>
    intro sa sb sa' h hbp hkeys
    obtain ⟨p, l⟩ := e
    rw [runEvents] at h
    obtain ⟨sa1, hgp, hrest⟩ := (except_bind_ok_iff _ _ _).mp h
    obtain ⟨sb1, hgpb⟩ := getParams_sim sa sb p l sa1 hgp hbp hkeys
    obtain ⟨ba, ra, ka⟩ := getParams_ok_pres sa p l sa1 hgp
    obtain ⟨bb, rb, kb⟩ := getParams_ok_pres sb p l sb1 hgpb
    obtain ⟨sb', hrun⟩ := ih sa1 sb1 sa' hrest (by rw [bb, hbp, ba])
      (by rw [kb, hkeys, ka])
    refine ⟨sb', ?_⟩
    rw [runEvents, hgpb]
    simpa [Bind.bind, Except.bind] using hrun

/-- Combined simulation-and-preservation for event replay: a replay that
succeeds from `sa` also succeeds from any `sb` agreeing on base path,
router map, and schema-map key set, and the results agree likewise. -/
theorem runEvents_sim' (es : List (String × Layer)) (sa sb sa' : GenState)
    (h : runEvents sa es = .ok sa')
    (hbp : sb.basePath = sa.basePath) (hrm : sb.routerMap = sa.routerMap)
    (hkeys : mapKeys sb.schemaMap = mapKeys sa.schemaMap) :
    ∃ sb', runEvents sb es = .ok sb' ∧ sb'.basePath = sa'.basePath ∧
      sb'.routerMap = sa'.routerMap ∧ mapKeys sb'.schemaMap = mapKeys sa'.schemaMap := by
  obtain ⟨sb', hrun⟩ := runEvents_sim es sa sb sa' h hbp hkeys
  obtain ⟨ba, ra, ka⟩ := runEvents_ok_pres es sa sa' h
  obtain ⟨bb, rb, kb⟩ := runEvents_ok_pres es sb sb' hrun
  exact ⟨sb', hrun, by rw [bb, hbp, ba], by rw [rb, hrm, ra], by rw [kb, hkeys, ka]⟩

/-- The central correspondence: a traversal that succeeds from `sa`
equals, from any state `sb` agreeing with `sa` on base path, router map,
and schema-map key set, the replay of the trace computed from `sa`'s
maps.  (With `sb := sa` this factors a successful traversal through its
event list; with `sb := ` the post-traversal state it lets a second
traversal be analyzed one event at a time.) -/
theorem traverse_eq_runEvents : ∀ fuel : Nat,
    (∀ (sa sb : GenState) (path : String) (l : Layer) (sa' : GenState),
      recurseStack fuel sa path l = .ok sa' →
      sb.basePath = sa.basePath → sb.routerMap = sa.routerMap →
      mapKeys sb.schemaMap = mapKeys sa.schemaMap →
      recurseStack fuel sb path l =
        runEvents sb (traceStack fuel sa.schemaMap sa.routerMap path l)) ∧
    (∀ (sa sb : GenState) (path : String) (ls : List Layer) (sa' : GenState),
      recurseList fuel sa path ls = .ok sa' →
      sb.basePath = sa.basePath → sb.routerMap = sa.routerMap →
      mapKeys sb.schemaMap = mapKeys sa.schemaMap →
      recurseList fuel sb path ls =
        runEvents sb (traceList fuel sa.schemaMap sa.routerMap path ls)) ∧
    (∀ (sa sb : GenState) (path : String) (ps : List String) (l : Layer) (sa' : GenState),
      recursePaths fuel sa path ps l = .ok sa' →
      sb.basePath = sa.basePath → sb.routerMap = sa.routerMap →
      mapKeys sb.schemaMap = mapKeys sa.schemaMap →
      recursePaths fuel sb path ps l =
        runEvents sb (tracePaths fuel sa.schemaMap sa.routerMap path ps l)) := by
  intro fuel
  induction fuel with
  | zero =>
    refine ⟨?_, ?_, ?_⟩
    · intro sa sb path l sa' ha hbp hrm hkeys
      rfl
    · intro sa sb path ls sa' ha hbp hrm hkeys
      rfl
    · intro sa sb path ps l sa' ha hbp hrm hkeys
      rfl
  | succ fuel ih =>
    obtain ⟨ihS, ihL, ihP⟩ := ih
    -- one sequencing step: a sub-walk equals the replay of its sub-trace
    have step : ∀ (T : List (String × Layer)) (sa1 sb1 sa2 : GenState)
        (wa : GenState → Except (GenError × GenState) GenState)
        (wb : GenState → Except (GenError × GenState) GenState),
        wa sa1 = .ok sa2 →
        (wa sa1 = runEvents sa1 T) → (wb sb1 = runEvents sb1 T) →
        sb1.basePath = sa1.basePath → sb1.routerMap = sa1.routerMap →
        mapKeys sb1.schemaMap = mapKeys sa1.schemaMap →
        ∃ sb2, wb sb1 = .ok sb2 ∧ sb2.basePath = sa2.basePath ∧
          sb2.routerMap = sa2.routerMap ∧ mapKeys sb2.schemaMap = mapKeys sa2.schemaMap := by
      intro T sa1 sb1 sa2 wa wb hok hwa hwb hbp hrm hkeys
      obtain ⟨sb2, hrun, h1, h2, h3⟩ :=
        runEvents_sim' T sa1 sb1 sa2 (hwa ▸ hok) hbp hrm hkeys
      exact ⟨sb2, hwb.trans hrun, h1, h2, h3⟩
    refine ⟨?_, ?_, ?_⟩
    · -- recurseStack
      intro sa sb path l sa' ha hbp hrm hkeys
      obtain ⟨name, handle, method, route⟩ := l
      rw [recurseStack] at ha
      obtain ⟨sa1, haG, haRest⟩ := (except_bind_ok_iff _ _ _).mp ha
      obtain ⟨sb1, hbG⟩ := getParams_sim sa sb path _ sa1 haG hbp hkeys
      obtain ⟨pba, pra, pka⟩ := getParams_ok_pres sa path _ sa1 haG
      obtain ⟨pbb, prb, pkb⟩ := getParams_ok_pres sb path _ sb1 hbG
      have hbp1 : sb1.basePath = sa1.basePath := by rw [pbb, hbp, pba]
      have hrm1 : sb1.routerMap = sa1.routerMap := by rw [prb, hrm, pra]
      have hkeys1 : mapKeys sb1.schemaMap = mapKeys sa1.schemaMap := by
        rw [pkb, hkeys, pka]
      rw [recurseStack, traceStack, runEvents, hbG]
      simp only [bind, Except.bind]
      rw [runEvents_append]
      -- the route tail, shared by every router-branch outcome
      have routeStep : ∀ (sA sB : GenState),
          (match (Layer.mk name handle method route).route with
            | none => Except.ok sA
            | some route =>
              match route.path with
              | Sum.inr ps =>
                match route.stack.find?
                    (fun (l : Layer) => (alookup l.handle.key sA.schemaMap).isSome) with
                | none => Except.ok sA
                | some schemaLayer => recursePaths fuel sA path ps schemaLayer
              | Sum.inl p => recurseList fuel sA (path ++ p) route.stack) = .ok sa' →
          sB.basePath = sA.basePath → sB.routerMap = sA.routerMap →
          mapKeys sB.schemaMap = mapKeys sA.schemaMap →
          sA.routerMap = sa.routerMap → mapKeys sA.schemaMap = mapKeys sa.schemaMap →
          (match (Layer.mk name handle method route).route with
            | none => Except.ok sB
            | some route =>
              match route.path with
              | Sum.inr ps =>
                match route.stack.find?
                    (fun (l : Layer) => (alookup l.handle.key sB.schemaMap).isSome) with
                | none => Except.ok sB
                | some schemaLayer => recursePaths fuel sB path ps schemaLayer
              | Sum.inl p => recurseList fuel sB (path ++ p) route.stack) =
            runEvents sB
              (match (Layer.mk name handle method route).route with
                | none => []
                | some route =>
                  match route.path with
                  | Sum.inr ps =>
                    match route.stack.find?
                        (fun (l : Layer) => (alookup l.handle.key sa.schemaMap).isSome) with
                    | none => []
                    | some schemaLayer =>
                      tracePaths fuel sa.schemaMap sa.routerMap path ps schemaLayer
                  | Sum.inl p =>
                    traceList fuel sa.schemaMap sa.routerMap (path ++ p) route.stack) := by
        intro sA sB haR hbpR hrmR hkeysR hrmA hkeysA
        simp only [Layer.route] at haR ⊢
        cases route with
        | none =>
          rfl
        | some r =>
          obtain ⟨rpath, rstack⟩ := r
          cases rpath with
          | inl p =>
            simp only [Route.path, Route.stack] at haR ⊢
            have hT : traceList fuel sA.schemaMap sA.routerMap (path ++ p) rstack =
                traceList fuel sa.schemaMap sa.routerMap (path ++ p) rstack := by
              rw [hrmA]
              exact (trace_congr fuel sA.schemaMap sa.schemaMap sa.routerMap hkeysA).2.1 _ _
            rw [← hT]
            exact ihL sA sB (path ++ p) rstack sa' haR hbpR hrmR hkeysR
          | inr ps =>
            simp only [Route.path, Route.stack] at haR ⊢
            have hfA : rstack.find? (fun l => (alookup l.handle.key sA.schemaMap).isSome) =
                rstack.find? (fun l => (alookup l.handle.key sa.schemaMap).isSome) :=
              find?_congr _ _
                (fun a => alookup_isSome_congr a.handle.key sA.schemaMap sa.schemaMap hkeysA)
                rstack
            have hfB : rstack.find? (fun l => (alookup l.handle.key sB.schemaMap).isSome) =
                rstack.find? (fun l => (alookup l.handle.key sa.schemaMap).isSome) :=
              find?_congr _ _
                (fun a => alookup_isSome_congr a.handle.key sB.schemaMap sa.schemaMap
                  (hkeysR.trans hkeysA))
                rstack
            rw [hfA] at haR
            rw [hfB]
            cases hft : rstack.find? (fun l => (alookup l.handle.key sa.schemaMap).isSome) with
            | none =>
              rw [hft] at haR
              rfl
            | some sl =>
              rw [hft] at haR
              have hT : tracePaths fuel sA.schemaMap sA.routerMap path ps sl =
                  tracePaths fuel sa.schemaMap sa.routerMap path ps sl := by
                rw [hrmA]
                exact (trace_congr fuel sA.schemaMap sa.schemaMap sa.routerMap hkeysA).2.2 _ _ _
              show recursePaths fuel sB path ps sl =
                runEvents sB (tracePaths fuel sa.schemaMap sa.routerMap path ps sl)
              rw [← hT]
              exact ihP sA sB path ps sl sa' haR hbpR hrmR hkeysR
      -- now the router branch
      cases handle with
      | handler i =>
        exact routeStep sa1 sb1 haRest hbp1 hrm1 hkeys1 pra pka
      | router rid stack =>
        simp only [Layer.handle, Layer.name] at haRest ⊢
        by_cases hn : name = "router"
        · simp only [hn, if_true] at haRest ⊢
          rw [pra] at haRest
          rw [prb, hrm]
          cases hrl : alookup rid sa.routerMap with
          | none =>
            simp [hrl, bind, Except.bind] at haRest
          | some rp =>
            by_cases hrp : rp = ""
            · simp [hrl, hrp, bind, Except.bind] at haRest
            · simp only [hrl, if_neg hrp] at haRest
              simp only []
              rw [if_neg hrp]
              obtain ⟨sa2, haRL, haRoute⟩ := (except_bind_ok_iff _ _ _).mp haRest
              have haRE : recurseList fuel sa1 (path ++ rp) stack =
                  runEvents sa1 (traceList fuel sa1.schemaMap sa1.routerMap (path ++ rp) stack) :=
                ihL sa1 sa1 (path ++ rp) stack sa2 haRL rfl rfl rfl
              have hbRE : recurseList fuel sb1 (path ++ rp) stack =
                  runEvents sb1 (traceList fuel sa1.schemaMap sa1.routerMap (path ++ rp) stack) :=
                ihL sa1 sb1 (path ++ rp) stack sa2 haRL hbp1 hrm1 hkeys1
              have hT : traceList fuel sa1.schemaMap sa1.routerMap (path ++ rp) stack =
                  traceList fuel sa.schemaMap sa.routerMap (path ++ rp) stack := by
                rw [pra]
                exact (trace_congr fuel sa1.schemaMap sa.schemaMap sa.routerMap pka).2.1 _ _
              obtain ⟨sb2, hbRL, hbp2, hrm2, hkeys2⟩ :=
                step (traceList fuel sa1.schemaMap sa1.routerMap (path ++ rp) stack)
                  sa1 sb1 sa2 (fun s => recurseList fuel s (path ++ rp) stack)
                  (fun s => recurseList fuel s (path ++ rp) stack) haRL haRE hbRE hbp1 hrm1
                  hkeys1
              have hrmA2 : sa2.routerMap = sa.routerMap := by
                obtain ⟨_, r2, _⟩ := runEvents_ok_pres _ _ _ (haRE ▸ haRL)
                rw [r2, pra]
              have hkeysA2 : mapKeys sa2.schemaMap = mapKeys sa.schemaMap := by
                obtain ⟨_, _, k2⟩ := runEvents_ok_pres _ _ _ (haRE ▸ haRL)
                rw [k2, pka]
              rw [hbRL, if_neg hrp, ← hT, ← hbRE, hbRL]
              exact routeStep sa2 sb2 haRoute hbp2 hrm2 hkeys2 hrmA2 hkeysA2
        · simp only [Layer.handle, Layer.name, if_neg hn] at haRest ⊢
          exact routeStep sa1 sb1 haRest hbp1 hrm1 hkeys1 pra pka
    · -- recurseList
      intro sa sb path ls sa' ha hbp hrm hkeys
      cases ls with
      | nil => rfl
      | cons l ls =>
        rw [recurseList] at ha
        obtain ⟨sa1, haS, haL⟩ := (except_bind_ok_iff _ _ _).mp ha
        have haSE : recurseStack fuel sa path l =
            runEvents sa (traceStack fuel sa.schemaMap sa.routerMap path l) :=
          ihS sa sa path l sa1 haS rfl rfl rfl
        have hbSE : recurseStack fuel sb path l =
            runEvents sb (traceStack fuel sa.schemaMap sa.routerMap path l) :=
          ihS sa sb path l sa1 haS hbp hrm hkeys
        obtain ⟨sb1, hbS, hbp1, hrm1, hkeys1⟩ :=
          step (traceStack fuel sa.schemaMap sa.routerMap path l) sa sb sa1
            (fun s => recurseStack fuel s path l) (fun s => recurseStack fuel s path l)
            haS haSE hbSE hbp hrm hkeys
        obtain ⟨pra1, pka1⟩ : sa1.routerMap = sa.routerMap ∧
            mapKeys sa1.schemaMap = mapKeys sa.schemaMap := by
          obtain ⟨_, r1, k1⟩ := runEvents_ok_pres _ _ _ (haSE ▸ haS)
          exact ⟨r1, k1⟩
        have hbLE : recurseList fuel sb1 path ls =
            runEvents sb1 (traceList fuel sa1.schemaMap sa1.routerMap path ls) :=
          ihL sa1 sb1 path ls sa' haL hbp1 hrm1 hkeys1
        have hT : traceList fuel sa1.schemaMap sa1.routerMap path ls =
            traceList fuel sa.schemaMap sa.routerMap path ls := by
          rw [pra1]
          exact (trace_congr fuel sa1.schemaMap sa.schemaMap sa.routerMap pka1).2.1 _ _
        rw [recurseList, traceList, hbS, runEvents_append, ← hbSE, hbS]
        simp only [bind, Except.bind]
        rw [hbLE, hT]
    · -- recursePaths
      intro sa sb path ps l sa' ha hbp hrm hkeys
      cases ps with
      | nil => rfl
      | cons p ps =>
        rw [recursePaths] at ha
        obtain ⟨sa1, haS, haP⟩ := (except_bind_ok_iff _ _ _).mp ha
        have haSE : recurseStack fuel sa (path ++ p) l =
            runEvents sa (traceStack fuel sa.schemaMap sa.routerMap (path ++ p) l) :=
          ihS sa sa (path ++ p) l sa1 haS rfl rfl rfl
        have hbSE : recurseStack fuel sb (path ++ p) l =
            runEvents sb (traceStack fuel sa.schemaMap sa.routerMap (path ++ p) l) :=
          ihS sa sb (path ++ p) l sa1 haS hbp hrm hkeys
        obtain ⟨sb1, hbS, hbp1, hrm1, hkeys1⟩ :=
          step (traceStack fuel sa.schemaMap sa.routerMap (path ++ p) l) sa sb sa1
            (fun s => recurseStack fuel s (path ++ p) l)
            (fun s => recurseStack fuel s (path ++ p) l) haS haSE hbSE hbp hrm hkeys
        obtain ⟨pra1, pka1⟩ : sa1.routerMap = sa.routerMap ∧
            mapKeys sa1.schemaMap = mapKeys sa.schemaMap := by
          obtain ⟨_, r1, k1⟩ := runEvents_ok_pres _ _ _ (haSE ▸ haS)
          exact ⟨r1, k1⟩
        have hbPE : recursePaths fuel sb1 path ps l =
            runEvents sb1 (tracePaths fuel sa1.schemaMap sa1.routerMap path ps l) :=
          ihP sa1 sb1 path ps l sa' haP hbp1 hrm1 hkeys1
        have hT : tracePaths fuel sa1.schemaMap sa1.routerMap path ps l =
            tracePaths fuel sa.schemaMap sa.routerMap path ps l := by
          rw [pra1]
          exact (trace_congr fuel sa1.schemaMap sa.schemaMap sa.routerMap pka1).2.2 _ _ _
        rw [recursePaths, tracePaths, hbS, runEvents_append, ← hbSE, hbS]
        simp only [bind, Except.bind]
        rw [hbPE, hT]

theorem filter_congr_local {α : Type} (p q : α → Bool) :
    ∀ l : List α, (∀ a ∈ l, p a = q a) → l.filter p = l.filter q
  | [], _ => rfl
  | a :: l, h => by
    rw [List.filter_cons, List.filter_cons, h a (List.mem_cons_self a l),
      filter_congr_local p q l fun x hx => h x (List.mem_cons_of_mem a hx)]

/-- Recorded-ness of events only depends on the schema-map key set. -/
theorem recordedOf_congr (m1 m2 : List ((Nat ⊕ Nat) × Operation)) (es : List (String × Layer))
    (h : mapKeys m1 = mapKeys m2) : recordedOf m1 es = recordedOf m2 es :=
  filter_congr_local _ _ es fun e _ => by
    unfold recordedEvent
    rw [alookup_isSome_congr e.2.handle.key m1 m2 h]

/-- Effect of one recorded write on a document-path lookup. -/
theorem docPathOp_update (paths : List (String × List (String × Operation)))
    (key0 m0 : String) (op : Operation) (key m : String) :
    (alookup key (setEntry key0 (setEntry m0 op ((alookup key0 paths).getD [])) paths)).bind
        (alookup m) =
      if key = key0 ∧ m = m0 then some op else (alookup key paths).bind (alookup m) := by
  by_cases hk : key = key0
  · subst hk
    rw [alookup_setEntry_self]
    by_cases hm : m = m0
    · subst hm
      rw [if_pos ⟨rfl, rfl⟩, Option.some_bind]
      exact alookup_setEntry_self _ _ _
    · rw [if_neg fun hh => hm hh.2, Option.some_bind, alookup_setEntry_ne op _ hm]
      cases hpo : alookup key paths with
      | none => simp [alookup]
      | some po => simp
  · rw [alookup_setEntry_ne _ _ hk, if_neg fun hh => hk hh.1]

/-- Forward characterization of a successful replay: when recorded
handler identities are pairwise distinct and recorded (document key,
method) sites are pairwise distinct, each recorded event leaves its
operation — computed from the schema registered at replay start — in the
schema map and in the document, every recorded event's path is
wildcard-free, and all other keys and sites are untouched. -/
theorem runEvents_writes : ∀ (es : List (String × Layer)) (st st' : GenState),
    runEvents st es = .ok st' →
    pairwiseDistinct ((recordedOf st.schemaMap es).map fun e => e.2.handle.key) = true →
    pairwiseDistinct ((recordedOf st.schemaMap es).map fun e =>
      (eventKey st.basePath e, lowerStr e.2.method)) = true →
    (∀ e ∈ es, recordedEvent st.schemaMap e = true →
      ∀ schema, alookup e.2.handle.key st.schemaMap = some schema →
        alookup e.2.handle.key st'.schemaMap =
          some (opOf schema (stripBase st.basePath e.1)) ∧
        docPathOp st' (eventKey st.basePath e) (lowerStr e.2.method) =
          some (opOf schema (stripBase st.basePath e.1)) ∧
        ((parseKeys (PathToRegexp.parse (stripBase st.basePath e.1))).find?
            fun k => k.type == KeyKind.wildcard).isSome = false) ∧
    (∀ k, ¬ k ∈ (recordedOf st.schemaMap es).map (fun e => e.2.handle.key) →
      alookup k st'.schemaMap = alookup k st.schemaMap) ∧
    (∀ key m, ¬ (key, m) ∈ (recordedOf st.schemaMap es).map (fun e =>
        (eventKey st.basePath e, lowerStr e.2.method)) →
      docPathOp st' key m = docPathOp st key m) := by
  intro es
  induction es with
  | nil =>
    intro st st' h hb hc
    injection h with h'
    subst h'
    refine ⟨fun e he => absurd he (List.not_mem_nil e), fun k _ => rfl, fun key m _ => rfl⟩
  | cons e es ih =>
    intro st st' h hb hc
    obtain ⟨p, l⟩ := e
    rw [runEvents] at h
    obtain ⟨st1, hgp, hrest⟩ := (except_bind_ok_iff _ _ _).mp h
    by_cases hrec : recordedEvent st.schemaMap (p, l) = true
    · -- the head event records
      have hfil : recordedOf st.schemaMap ((p, l) :: es) =
          (p, l) :: recordedOf st.schemaMap es := by
        unfold recordedOf
        rw [List.filter_cons, if_pos hrec]
      rw [hfil, List.map_cons] at hb hc
      rw [pairwiseDistinct, Bool.and_eq_true, Bool.not_eq_true'] at hb hc
      obtain ⟨hbhead, hbtail⟩ := hb
      obtain ⟨hchead, hctail⟩ := hc
      have hbhead' : ¬ (Layer.handle l).key ∈
          (recordedOf st.schemaMap es).map (fun e => e.2.handle.key) := by
        intro hmem
        rw [decide_eq_false_iff_not] at hbhead
        exact hbhead hmem
      have hchead' : ¬ (eventKey st.basePath (p, l), lowerStr (Layer.method l)) ∈
          (recordedOf st.schemaMap es).map
            (fun e => (eventKey st.basePath e, lowerStr e.2.method)) := by
        intro hmem
        rw [decide_eq_false_iff_not] at hchead
        exact hchead hmem
      unfold recordedEvent at hrec
      rw [Bool.and_eq_true] at hrec
      obtain ⟨hlk0, hm0⟩ := hrec
      obtain ⟨schema0, hlk⟩ := Option.isSome_iff_exists.mp hlk0
      rw [getParams_some st p l schema0 hlk, if_pos hm0] at hgp
      by_cases hw : ((parseKeys (PathToRegexp.parse (stripBase st.basePath p))).find?
          fun k => k.type == KeyKind.wildcard).isSome = true
      · rw [if_pos hw] at hgp
        exact Except.noConfusion hgp
      rw [Bool.not_eq_true] at hw
      rw [if_neg (by rw [hw]; exact Bool.false_ne_true)] at hgp
      injection hgp with hst1
      -- facts about st1
      have hbp1 : st1.basePath = st.basePath := by rw [← hst1]
      have hmap1 : st1.schemaMap = setEntry l.handle.key
          (opOf schema0 (stripBase st.basePath p)) st.schemaMap := by rw [← hst1]
      have hdoc1 : st1.doc.paths = setEntry (toOpenAPIPath (stripBase st.basePath p))
          (setEntry (lowerStr l.method) (opOf schema0 (stripBase st.basePath p))
            ((alookup (toOpenAPIPath (stripBase st.basePath p)) st.doc.paths).getD []))
          st.doc.paths := by rw [← hst1]
      have hkeys1 : mapKeys st1.schemaMap = mapKeys st.schemaMap := by
        rw [hmap1]
        simp only [mapKeys]
        exact setEntry_map_fst _ _ _ hlk0
      have hrec1 : recordedOf st1.schemaMap es = recordedOf st.schemaMap es :=
        recordedOf_congr _ _ es hkeys1
      obtain ⟨ihC, ihMF, ihDF⟩ := ih st1 st' hrest
        (by rw [hrec1]; exact hbtail) (by rw [hrec1, hbp1]; exact hctail)
      refine ⟨?_, ?_, ?_⟩
      · intro e' he' hrec' schema' hlk'
        rcases List.mem_cons.mp he' with he' | he'
        · -- the head event itself
          subst he'
          rw [hlk] at hlk'
          injection hlk' with hschema'
          subst hschema'
          refine ⟨?_, ?_, by rw [hw]⟩
          · rw [ihMF _ (by rw [hrec1]; exact hbhead'), hmap1]
            exact alookup_setEntry_self _ _ _
          · rw [ihDF _ _ (by rw [hrec1, hbp1]; exact hchead')]
            unfold docPathOp eventKey
            rw [hdoc1]
            rw [docPathOp_update, if_pos ⟨rfl, rfl⟩]
        · -- a later event
          have hne : l.handle.key ≠ e'.2.handle.key := by
            intro heq
            apply hbhead'
            rw [heq]
            have : e' ∈ recordedOf st.schemaMap es := by
              unfold recordedOf
              rw [List.mem_filter]
              exact ⟨he', hrec'⟩
            exact List.mem_map_of_mem _ this
          have hlk1 : alookup e'.2.handle.key st1.schemaMap = some schema' := by
            rw [hmap1, alookup_setEntry_ne _ _ (fun hh => hne hh.symm)]
            exact hlk'
          have hrece1 : recordedEvent st1.schemaMap e' = true := by
            unfold recordedEvent at hrec' ⊢
            rw [Bool.and_eq_true] at hrec' ⊢
            refine ⟨?_, hrec'.2⟩
            rw [alookup_isSome_congr _ _ _ hkeys1]
            exact hrec'.1
          have := ihC e' he' hrece1 schema' hlk1
          rw [hbp1] at this
          exact this
      · intro k hk
        rw [hfil, List.map_cons, List.mem_cons] at hk
        push_neg at hk
        obtain ⟨hk1, hk2⟩ := hk
        have hk1' : k ≠ l.handle.key := hk1
        rw [ihMF k (by rw [hrec1]; exact hk2), hmap1,
          alookup_setEntry_ne _ _ hk1']
      · intro key m hkm
        rw [hfil, List.map_cons, List.mem_cons] at hkm
        push_neg at hkm
        obtain ⟨hkm1, hkm2⟩ := hkm
        rw [ihDF key m (by rw [hrec1, hbp1]; exact hkm2)]
        unfold docPathOp
        rw [hdoc1, docPathOp_update, if_neg]
        intro ⟨hh1, hh2⟩
        exact hkm1 (by rw [hh1, hh2]; rfl)
    · -- the head event is a no-op
      rw [Bool.not_eq_true] at hrec
      have hnp : getParams st p l = .ok st := getParams_not_recorded st p l hrec
      rw [hnp] at hgp
      injection hgp with hst1
      subst hst1
      have hfil : recordedOf st.schemaMap ((p, l) :: es) = recordedOf st.schemaMap es := by
        unfold recordedOf
        rw [List.filter_cons, if_neg (by rw [hrec]; exact Bool.false_ne_true)]
      rw [hfil] at hb hc
      obtain ⟨ihC, ihMF, ihDF⟩ := ih st st' hrest hb hc
      rw [hfil]
      refine ⟨?_, ihMF, ihDF⟩
      intro e' he' hrec' schema' hlk'
      rcases List.mem_cons.mp he' with he' | he'
      · subst he'
        rw [hrec'] at hrec
        exact Bool.noConfusion hrec
      · exact ihC e' he' hrec' schema' hlk'

/-- Every parameter object produced by `mkParam1` is saturated: its
name, location, required flag and schema are all populated, with the
name and location matching the key. -/
theorem mkParam1_saturated (schema : Operation) (k : Keys) :
    (mkParam1 schema k).name = some k.name ∧ (mkParam1 schema k).«in» = some "path" ∧
    (mkParam1 schema k).required.isSome = true ∧ (mkParam1 schema k).schema.isSome = true := by
  cases hfd : findDeclaredParam schema.parameters k.name with
  | none =>
    rw [mkParam1, hfd]
    exact ⟨rfl, rfl, rfl, rfl⟩
  | some p =>
    have hpred : (isParameterObject p && p.name == some k.name
        && p.«in» == some "path") = true := by
      unfold findDeclaredParam at hfd
      cases hps : schema.parameters with
      | none =>
        rw [hps] at hfd
        exact Option.noConfusion hfd
      | some ps =>
        rw [hps] at hfd
        have hfd' : ps.find? (fun p => isParameterObject p && p.name == some k.name
            && p.«in» == some "path") = some p := hfd
        have hres := List.find?_some hfd'
        exact hres
    rw [Bool.and_eq_true, Bool.and_eq_true] at hpred
    obtain ⟨⟨_, hn⟩, hi⟩ := hpred
    have hn' : p.name = some k.name := eq_of_beq hn
    have hi' : p.«in» = some "path" := eq_of_beq hi
    rw [mkParam1, hfd]
    refine ⟨?_, ?_, ?_, ?_⟩
    · show oAssign (some k.name) p.name = some k.name
      rw [hn']
      rfl
    · show oAssign (some "path") p.«in» = some "path"
      rw [hi']
      rfl
    · show (oAssign (some k.required) p.required).isSome = true
      cases hr : p.required with
      | none => rfl
      | some r => rfl
    · show (oAssign (some ⟨"string"⟩) p.schema).isSome = true
      cases hs : p.schema with
      | none => rfl
      | some s => rfl

/-- Merging the defaults under a saturated parameter object is the
identity. -/
theorem assignParam_saturated (k : Keys) (q : Param)
    (hn : q.name.isSome = true) (hi : q.«in».isSome = true)
    (hr : q.required.isSome = true) (hs : q.schema.isSome = true) :
    assignParam (defaultParam k) q = q := by
  obtain ⟨qn, qi, qr, qs, qd⟩ := q
  cases qn <;> cases qi <;> cases qr <;> cases qs <;> cases qd <;>
    simp_all [assignParam, defaultParam, oAssign]

/-- In the parameter list `mkParams` produces, the declared-parameter
search for a key finds exactly that key's own synthesized entry,
provided the key names are pairwise distinct. -/
theorem findDeclaredParam_mkParams (schema : Operation) :
    ∀ (keys : List Keys) (k : Keys), k ∈ keys →
      pairwiseDistinct (keys.map Keys.name) = true →
      findDeclaredParam (some (mkParams schema keys)) k.name = some (mkParam1 schema k) := by
  intro keys
  induction keys with
  | nil =>
    intro k hk _
    exact absurd hk (List.not_mem_nil k)
  | cons k0 keys ih =>
    intro k hk hd
    simp only [List.map_cons, pairwiseDistinct, Bool.and_eq_true, Bool.not_eq_eq_eq_not,
      Bool.not_true, decide_eq_false_iff_not] at hd
    obtain ⟨hnot, hd'⟩ := hd
    show (mkParam1 schema k0 :: List.map (mkParam1 schema) keys).find?
        (fun p => isParameterObject p && p.name == some k.name && p.«in» == some "path") =
      some (mkParam1 schema k)
    obtain ⟨p0n, p0i, _, _⟩ := mkParam1_saturated schema k0
    rcases List.mem_cons.mp hk with hk | hk
    · subst hk
      rw [List.find?_cons_of_pos]
      rw [isParameterObject, p0n, p0i]
      simp
    · have hne : k0.name ≠ k.name := fun hh => hnot (hh ▸ List.mem_map_of_mem Keys.name hk)
      rw [List.find?_cons_of_neg]
      · exact ih k hk hd'
      · intro hp
        rw [Bool.and_eq_true, Bool.and_eq_true] at hp
        have : k0.name = k.name := by
          have := eq_of_beq hp.1.2
          rw [p0n] at this
          exact Option.some.inj this
        exact hne this

/-- Recomputing a synthesized parameter object against an operation that
already holds the synthesized list gives it back unchanged. -/
theorem mkParam1_stable (schema : Operation) (keys : List Keys) (k : Keys)
    (hk : k ∈ keys) (hd : pairwiseDistinct (keys.map Keys.name) = true)
    (op2 : Operation) (hop : op2.parameters = some (mkParams schema keys)) :
    mkParam1 op2 k = mkParam1 schema k := by
  rw [mkParam1, hop, findDeclaredParam_mkParams schema keys k hk hd]
  obtain ⟨pn, pi, pr, ps⟩ := mkParam1_saturated schema k
  exact assignParam_saturated k _ (by rw [pn]; rfl) (by rw [pi]; rfl) pr ps

/-- `opOf` is stable: recomputing the operation from an already-written
operation returns it unchanged, provided the path's parameter names are
pairwise distinct. -/
theorem opOf_idem (schema : Operation) (path' : String)
    (hd : pairwiseDistinct ((parseKeys (PathToRegexp.parse path')).map Keys.name) = true) :
    opOf (opOf schema path') path' = opOf schema path' := by
  have hmap : mkParams (opOf schema path') (parseKeys (PathToRegexp.parse path')) =
      mkParams schema (parseKeys (PathToRegexp.parse path')) := by
    unfold mkParams
    apply List.map_congr_left
    intro k hk
    exact mkParam1_stable schema (parseKeys (PathToRegexp.parse path')) k hk hd
      (opOf schema path') rfl
  show { opOf schema path' with
      parameters := some (mkParams (opOf schema path')
        (parseKeys (PathToRegexp.parse path'))) } = opOf schema path'
  rw [hmap]
  rfl

/-- A replay in which every recorded event's stored operation is already
stable — the schema-map entry is a fixed point of `opOf`, it is already
present at its document site, and its path has no wildcard — leaves the
state unchanged. -/
theorem runEvents_noop : ∀ (es : List (String × Layer)) (st : GenState),
    (∀ e ∈ es, recordedEvent st.schemaMap e = true →
      ∀ schema, alookup e.2.handle.key st.schemaMap = some schema →
        opOf schema (stripBase st.basePath e.1) = schema ∧
        docPathOp st (eventKey st.basePath e) (lowerStr e.2.method) = some schema ∧
        ((parseKeys (PathToRegexp.parse (stripBase st.basePath e.1))).find?
            fun k => k.type == KeyKind.wildcard).isSome = false) →
    runEvents st es = .ok st := by
  intro es
  induction es with
  | nil =>
    intro st _
    rfl
  | cons e es ih =>
    intro st hh
    obtain ⟨p, l⟩ := e
    have htail : ∀ e ∈ es, recordedEvent st.schemaMap e = true →
        ∀ schema, alookup e.2.handle.key st.schemaMap = some schema →
          opOf schema (stripBase st.basePath e.1) = schema ∧
          docPathOp st (eventKey st.basePath e) (lowerStr e.2.method) = some schema ∧
          ((parseKeys (PathToRegexp.parse (stripBase st.basePath e.1))).find?
              fun k => k.type == KeyKind.wildcard).isSome = false :=
      fun e' he' => hh e' (List.mem_cons_of_mem _ he')
    by_cases hrec : recordedEvent st.schemaMap (p, l) = true
    · have hsm : (alookup l.handle.key st.schemaMap).isSome = true := by
        unfold recordedEvent at hrec
        exact ((Bool.and_eq_true _ _).mp hrec).1
      have hmeth : isHTTPMethod (lowerStr l.method) = true := by
        unfold recordedEvent at hrec
        exact ((Bool.and_eq_true _ _).mp hrec).2
      obtain ⟨schema, hlk⟩ := Option.isSome_iff_exists.mp hsm
      obtain ⟨Hop, Hdoc, Hw⟩ := hh (p, l) (List.mem_cons_self _ _) hrec schema hlk
      have Hop' : opOf schema (stripBase st.basePath p) = schema := Hop
      have Hdoc' : (alookup (toOpenAPIPath (stripBase st.basePath p)) st.doc.paths).bind
          (alookup (lowerStr l.method)) = some schema := Hdoc
      have Hw' : ((parseKeys (PathToRegexp.parse (stripBase st.basePath p))).find?
          fun k => k.type == KeyKind.wildcard).isSome = false := Hw
      have hgp : getParams st p l = .ok st := by
        rw [getParams_some st p l schema hlk, if_pos hmeth,
          if_neg (by rw [Hw']; exact Bool.false_ne_true), Hop']
        cases hpo : alookup (toOpenAPIPath (stripBase st.basePath p)) st.doc.paths with
        | none =>
          exfalso
          rw [hpo] at Hdoc'
          exact Option.noConfusion Hdoc'
        | some po =>
          have hin : alookup (lowerStr l.method) po = some schema := by
            rw [hpo] at Hdoc'
            simpa using Hdoc'
          rw [Option.getD_some, setEntry_self _ _ _ hin, setEntry_self _ _ _ hpo,
            setEntry_self _ _ _ hlk]
      rw [runEvents, hgp]
      exact ih st htail
    · have hgp : getParams st p l = .ok st := by
        rw [Bool.not_eq_true] at hrec
        exact getParams_not_recorded st p l hrec
      rw [runEvents, hgp]
      exact ih st htail

/-- C7 (amended): a second `initializeDoc` traversal of the same
unchanged root router, with the same registrations, reproduces the
result of the first — each path/method entry is overwritten with
structurally equal data and no entry is duplicated — provided (a) every
recorded route path parses to pairwise-distinct parameter names, (b) the
recorded events use pairwise-distinct handlers, and (c) the recorded
(document key, method) sites are pairwise distinct.  (The unconditional
claim fails: see the counterexample, where one parameter name occurs
twice in a concatenated mount-plus-route path with differing `required`
flags, so the declared-parameter merge flips the flag on re-traversal.) -/
theorem initializeDoc_idempotent (fuel : Nat) (st0 st1 : GenState) (stack : List Layer)
    (h1 : initializeDoc fuel st0 (some stack) = .ok st1)
    (ha : ∀ e ∈ recordedOf st0.schemaMap
        (traceList fuel st0.schemaMap st0.routerMap "" stack),
      pairwiseDistinct (eventNames st0.basePath e) = true)
    (hb : pairwiseDistinct ((recordedOf st0.schemaMap
        (traceList fuel st0.schemaMap st0.routerMap "" stack)).map
        fun e => e.2.handle.key) = true)
    (hc : pairwiseDistinct ((recordedOf st0.schemaMap
        (traceList fuel st0.schemaMap st0.routerMap "" stack)).map
        fun e => (eventKey st0.basePath e, lowerStr e.2.method)) = true) :
    initializeDoc fuel st1 (some stack) = .ok st1 := by
  have h1' : recurseList fuel st0 "" stack = .ok st1 := h1
  have hE : runEvents st0 (traceList fuel st0.schemaMap st0.routerMap "" stack) = .ok st1 := by
    rw [← (traverse_eq_runEvents fuel).2.1 st0 st0 "" stack st1 h1' rfl rfl rfl]
    exact h1'
  obtain ⟨b1, r1, k1⟩ := runEvents_ok_pres _ st0 st1 hE
  obtain ⟨FC, _, _⟩ := runEvents_writes _ st0 st1 hE hb hc
  have h2 : recurseList fuel st1 "" stack =
      runEvents st1 (traceList fuel st0.schemaMap st0.routerMap "" stack) :=
    (traverse_eq_runEvents fuel).2.1 st0 st1 "" stack st1 h1' b1 r1 k1
  have hnoop : runEvents st1 (traceList fuel st0.schemaMap st0.routerMap "" stack) =
      .ok st1 := by
    apply runEvents_noop
    intro e he hrec1 schema' hlk1
    have hrec0 : recordedEvent st0.schemaMap e = true := by
      unfold recordedEvent at hrec1 ⊢
      rw [← alookup_isSome_congr e.2.handle.key st1.schemaMap st0.schemaMap k1]
      exact hrec1
    have hsm0 : (alookup e.2.handle.key st0.schemaMap).isSome = true := by
      unfold recordedEvent at hrec0
      exact ((Bool.and_eq_true _ _).mp hrec0).1
    obtain ⟨schema0, hlk0⟩ := Option.isSome_iff_exists.mp hsm0
    obtain ⟨F1, F2, F3⟩ := FC e he hrec0 schema0 hlk0
    have hschema : schema' = opOf schema0 (stripBase st0.basePath e.1) := by
      rw [hlk1] at F1
      exact Option.some.inj F1
    have hmem : e ∈ recordedOf st0.schemaMap
        (traceList fuel st0.schemaMap st0.routerMap "" stack) :=
      List.mem_filter.mpr ⟨he, hrec0⟩
    refine ⟨?_, ?_, ?_⟩
    · rw [b1, hschema]
      exact opOf_idem schema0 _ (ha e hmem)
    · rw [b1, hschema]
      exact F2
    · rw [b1]
      exact F3
  show recurseList fuel st1 "" stack = .ok st1
  rw [h2]
  exact hnoop

/-- Witness for C7 at a concrete input: one registered handler on route
`/users/:id`; the first traversal succeeds and the second reproduces its
result exactly. -/
theorem initializeDoc_idempotent_witness :
    initializeDoc 10 w7st0 (some [w7top]) = .ok w7after ∧
    initializeDoc 10 w7after (some [w7top]) = .ok w7after :=
  ⟨by rfl,
   initializeDoc_idempotent 10 w7st0 w7after [w7top] (by rfl) (by decide) (by decide)
     (by decide)⟩

end ExpressOpenAPI
